import Mathlib

set_option maxHeartbeats 1000000

/-!
Verification of the allele-reconciliation and sample-data remapping engine
(src/variant/src/variant_operations.cc) against its natural-language
specification.  Reference and alt alleles are modelled as lists of characters;
the iteration over valid calls is modelled as a list of (call index, call)
pairs, mirroring the valid-call iterator of the source.
-/

abbrev Str := List Char

/-- Modelled from the spec: the reserved symbolic "non-reference" placeholder
allele string (`g_non_reference_allele`), declared outside the translated
source file.  Only its distinguishedness matters to the claims. -/
def g_non_reference_allele : Str := "&".data

/-- Embedding of the IS_NON_REF_ALLELE macro (declared outside the translated
source file): the allele equals the placeholder. -/
abbrev IS_NON_REF_ALLELE (allele : Str) : Prop := allele = g_non_reference_allele

/-- Embedding of the CHECK_IN_THE_MIDDLE_REF macro (declared outside the
translated source file): the reference equals the single-character placeholder
"N" installed by modify_reference_if_in_middle. -/
abbrev CHECK_IN_THE_MIDDLE_REF (ref : Str) : Prop := ref = "N".data

/-- One valid sample record (call) as seen by the merge routines: its REF
string (GVCF_REF_IDX field) and its vector of ALT allele strings
(GVCF_ALT_IDX field). -/
structure VariantCall where
  ref : Str
  alts : List Str
deriving DecidableEq

/-- A variant's valid calls, each paired with its call index within the
variant (`get_call_idx_in_variant`; invalid calls are skipped, so the indices
need not be contiguous). -/
abbrev Variant := List (Nat × VariantCall)

/-- `isPrefixList s l` : s is a prefix of l. -/
abbrev isPrefixList (s l : Str) : Prop := s = l.take s.length

/-- The accumulator of the reference-merge fold is either still the empty
initial string, the "N" placeholder, or (verbatim) one of the variant's
non-placeholder reference strings. -/
def RefAcc (variant : List (Nat × VariantCall)) (acc : Str) : Prop :=
  acc = [] ∨ acc = "N".data ∨
    (¬ CHECK_IN_THE_MIDDLE_REF acc ∧ ∃ cv ∈ variant, acc = cv.2.ref)

/-!  ### Reference merger (VariantOperations::merge_reference_allele)

The loop body of merge_reference_allele, lines 50-82.  The C++ keeps a cached
`merged_ref_length`; the cache equals the actual length of the merged string
whenever all reference strings are nonempty (the only regime the claims are
about), so the embedding recomputes the length.  The DEBUG-only prefix sanity
check (lines 61-67) performs no state change and is omitted. -/
def merge_ref_step (merged_reference_allele : Str) (curr_ref : Str) : Str :=
  if merged_reference_allele.length < curr_ref.length then
    if 0 < merged_reference_allele.length ∧ CHECK_IN_THE_MIDDLE_REF merged_reference_allele then
      curr_ref
    else
      merged_reference_allele ++ curr_ref.drop merged_reference_allele.length
  else
    if CHECK_IN_THE_MIDDLE_REF merged_reference_allele ∧ ¬ CHECK_IN_THE_MIDDLE_REF curr_ref then
      curr_ref
    else
      merged_reference_allele

/-- Embedding of VariantOperations::merge_reference_allele (lines 42-83):
iterate over the valid calls, folding each call's REF string into the
`merged_reference_allele` output parameter (which is NOT cleared on entry). -/
def merge_reference_allele (variant : Variant) (merged_reference_allele : Str) : Str :=
  variant.foldl (fun m cv => merge_ref_step m cv.2.ref) merged_reference_allele

/-! ### Allele translation table (CombineAllelesLUT) -/

/-- Modelled from the spec: the MISSING sentinel of the translation table
(`lut_missing_value`, declared outside the translated source file). -/
def lut_missing_value : Int := -1

/-- Modelled from the spec: the bidirectional, per-sample allele translation
table (class CombineAllelesLUT, declared outside the translated source file):
for each sample index two index maps, local→merged and merged→local, each entry
either a valid index or the MISSING sentinel. -/
structure CombineAllelesLUT where
  inputToMerged : Nat → Int → Int
  mergedToInput : Nat → Int → Int

/-- Modelled from the spec: reset_luts sets every entry of both directions to
the MISSING sentinel. -/
def CombineAllelesLUT.reset_luts (_ : CombineAllelesLUT) : CombineAllelesLUT :=
  { inputToMerged := fun _ _ => lut_missing_value,
    mergedToInput := fun _ _ => lut_missing_value }

/-- Modelled from the spec: growth must preserve already-written mappings, so
over total index maps it is the identity. -/
def CombineAllelesLUT.resize_luts_if_needed (lut : CombineAllelesLUT) (_ : Nat) :
    CombineAllelesLUT := lut

/-- Modelled from the spec: record the input↔merged index pair for one sample,
in both directions. -/
def CombineAllelesLUT.add_input_merged_idx_pair (lut : CombineAllelesLUT)
    (call : Nat) (inputIdx mergedIdx : Int) : CombineAllelesLUT :=
  { inputToMerged := fun c i =>
      if c = call ∧ i = inputIdx then mergedIdx else lut.inputToMerged c i,
    mergedToInput := fun c m =>
      if c = call ∧ m = mergedIdx then inputIdx else lut.mergedToInput c m }

/-- Modelled from the spec: local→merged lookup. -/
def CombineAllelesLUT.get_merged_idx_for_input (lut : CombineAllelesLUT)
    (call : Nat) (inputIdx : Int) : Int := lut.inputToMerged call inputIdx

/-- Modelled from the spec: merged→local lookup. -/
def CombineAllelesLUT.get_input_idx_for_merged (lut : CombineAllelesLUT)
    (call : Nat) (mergedIdx : Int) : Int := lut.mergedToInput call mergedIdx

/-- The all-missing table. -/
def emptyLUT : CombineAllelesLUT :=
  { inputToMerged := fun _ _ => lut_missing_value,
    mergedToInput := fun _ _ => lut_missing_value }

/-! ### Alt allele merger (VariantOperations::merge_alt_alleles) -/

/-- Padding of an alt allele (merge_alt_alleles lines 124-151): when the
sample's reference is shorter than the merged reference, append the trailing
suffix of the merged reference beyond the local reference length. -/
def padAllele (merged_reference_allele : Str) (curr_reference_length : Nat)
    (allele : Str) : Str :=
  if curr_reference_length < merged_reference_allele.length then
    allele ++ merged_reference_allele.drop curr_reference_length
  else allele

/-- The mutable state threaded through VariantOperations::merge_alt_alleles. -/
structure MergeAltState where
  seen_alleles : Str → Option Int
  merged_alt_alleles : List Str
  alleles_LUT : CombineAllelesLUT
  input_non_reference_allele_idx : Nat → Int
  merged_allele_idx : Nat
  NON_REF_exists : Bool

/-- Loop body over one alt allele of one call (merge_alt_alleles lines
136-169): a placeholder allele records its local index and sets the
NON_REF_exists flag; any other allele is padded, looked up in the dedup
dictionary, appended to the merged list with the next merged index on first
sight, and its input→merged pair recorded in the table. -/
def processOneAllele (merged_reference_allele : Str) (callIdx curr_reference_length : Nat)
    (st : MergeAltState) (input_allele_idx : Nat) (allele : Str) : MergeAltState :=
  if IS_NON_REF_ALLELE allele then
    { st with
      input_non_reference_allele_idx := fun c =>
        if c = callIdx then (input_allele_idx : Int)
        else st.input_non_reference_allele_idx c,
      NON_REF_exists := true }
  else
    let padded := padAllele merged_reference_allele curr_reference_length allele
    match st.seen_alleles padded with
    | some m =>
      { st with alleles_LUT :=
          st.alleles_LUT.add_input_merged_idx_pair callIdx (input_allele_idx : Int) m }
    | none =>
      { seen_alleles := fun s =>
          if s = padded then some (st.merged_allele_idx : Int) else st.seen_alleles s,
        merged_alt_alleles := st.merged_alt_alleles ++ [padded],
        alleles_LUT := (st.alleles_LUT.resize_luts_if_needed
            (st.merged_allele_idx + 1)).add_input_merged_idx_pair
            callIdx (input_allele_idx : Int) (st.merged_allele_idx : Int),
        input_non_reference_allele_idx := st.input_non_reference_allele_idx,
        merged_allele_idx := st.merged_allele_idx + 1,
        NON_REF_exists := st.NON_REF_exists }

/-- The inner loop over one call's alt alleles, threading the running
input_allele_idx counter. -/
def processAlleles (merged_reference_allele : Str) (callIdx curr_reference_length : Nat) :
    Nat → List Str → MergeAltState → MergeAltState
  | _, [], st => st
  | i, a :: rest, st =>
    processAlleles merged_reference_allele callIdx curr_reference_length (i + 1) rest
      (processOneAllele merged_reference_allele callIdx curr_reference_length st i a)

/-- The outer loop body over one valid call (merge_alt_alleles lines 114-170):
record the 0→0 reference mapping, then process the alt alleles from index 1. -/
def processCall (merged_reference_allele : Str) (st : MergeAltState)
    (cv : Nat × VariantCall) : MergeAltState :=
  processAlleles merged_reference_allele cv.1 cv.2.ref.length 1 cv.2.alts
    { st with alleles_LUT := st.alleles_LUT.add_input_merged_idx_pair cv.1 0 0 }

/-- Initial state of merge_alt_alleles (lines 99-109): the dedup dictionary is
seeded with the placeholder mapped to -1, the table is reset, every call's
placeholder index is -1, the next merged index is 1, NON_REF_exists is false. -/
def initMergeAltState (alleles_LUT : CombineAllelesLUT) : MergeAltState :=
  { seen_alleles := fun s => if s = g_non_reference_allele then some (-1) else none,
    merged_alt_alleles := [],
    alleles_LUT := alleles_LUT.reset_luts,
    input_non_reference_allele_idx := fun _ => -1,
    merged_allele_idx := 1,
    NON_REF_exists := false }

/-- Embedding of VariantOperations::merge_alt_alleles (lines 95-190).  After
the main loop, if any call contributed the placeholder it is appended as the
final merged alt allele and every call that had it locally gets its local
placeholder index mapped to the final merged index (the size of the merged alt
list, counting REF at index 0). -/
def merge_alt_alleles (variant : Variant) (merged_reference_allele : Str)
    (alleles_LUT : CombineAllelesLUT) : MergeAltState :=
  let st := variant.foldl (processCall merged_reference_allele)
    (initMergeAltState alleles_LUT)
  if st.NON_REF_exists then
    let merged := st.merged_alt_alleles ++ [g_non_reference_allele]
    let non_reference_allele_idx : Nat := merged.length
    { st with
      merged_alt_alleles := merged,
      alleles_LUT := variant.foldl (fun l cv =>
        if 0 ≤ st.input_non_reference_allele_idx cv.1 then
          (l.resize_luts_if_needed
              (non_reference_allele_idx + 1)).add_input_merged_idx_pair
            cv.1 (st.input_non_reference_allele_idx cv.1) (non_reference_allele_idx : Int)
        else l) st.alleles_LUT }
  else st

/-- Keep-first deduplication step. -/
def dedupStep (acc : List Str) (s : Str) : List Str :=
  if s ∈ acc then acc else acc ++ [s]

/-- Keep-first deduplication of a list of alleles. -/
def dedupFirst (l : List Str) : List Str := l.foldl dedupStep []

/-- The sequence of padded non-placeholder alt alleles in iteration order
(valid calls outer, each call's local alt alleles inner). -/
def flattenPaddedAlts (merged_reference_allele : Str) (variant : Variant) : List Str :=
  (variant.map (fun cv =>
    (cv.2.alts.filter (fun a => decide (¬ IS_NON_REF_ALLELE a))).map
      (padAllele merged_reference_allele cv.2.ref.length))).flatten

/-- Invariant tying the dedup dictionary to the merged alt list during the
merge: the placeholder stays mapped to -1, the next merged index is one past
the list, the dictionary maps the list's p-th element to p+1, and every
non-placeholder dictionary entry is such a list element. -/
def SeenInv (st : MergeAltState) : Prop :=
  st.seen_alleles g_non_reference_allele = some (-1) ∧
  st.merged_allele_idx = st.merged_alt_alleles.length + 1 ∧
  (∀ p s, st.merged_alt_alleles.get? p = some s →
    st.seen_alleles s = some ((p : Int) + 1)) ∧
  (∀ s m, st.seen_alleles s = some m → s ≠ g_non_reference_allele →
    ∃ p, st.merged_alt_alleles.get? p = some s ∧ m = (p : Int) + 1)

/-! ### Field remappers -/

/-- Triangular genotype-pair index: the bcf_alleles2gt macro applied to merged
allele indices j, k; for j ≤ k it is j + k*(k+1)/2. -/
def gtIndex (j k : Nat) : Nat :=
  if k < j then k + j * (j + 1) / 2 else j + k * (k + 1) / 2

/-- The bcf_alleles2gt macro applied to the (possibly fallback-resolved) local
allele indices, in the source's signed arithmetic. -/
def bcf_alleles2gt (a b : Int) : Int :=
  if b < a then b + a * (a + 1) / 2 else a + b * (b + 1) / 2

/-- Shallow model of the remap destination for one sample's invocation
(RemappedDataWrapperBase::put_address writes at (input_call_idx, slot)):
the sample's slot array plus the shared per-slot
num_calls_with_valid_data counters. -/
structure RemapOut (α : Type) where
  dest : Nat → α
  counts : Nat → Nat

/-- Loop body of remap_data_based_on_alleles over one merged slot j (lines
233-249): resolve merged allele (j+1 in alt-only mode, else j) through the
merged→local direction, falling back to the sample's NON_REF local index; on
failure write the missing value, otherwise copy the local value (index shifted
by -1 in alt-only mode) and bump the slot's valid-data counter. -/
def remapAllelesStep {α : Type} (input_data : List α) (input_call_idx : Nat)
    (alleles_LUT : CombineAllelesLUT) (input_non_reference_allele_idx : Int)
    (alt_alleles_only : Bool) (missing_value : α)
    (out : RemapOut α) (j : Nat) : RemapOut α :=
  let allele_j : Int := if alt_alleles_only then (j : Int) + 1 else (j : Int)
  let input_j_allele := alleles_LUT.get_input_idx_for_merged input_call_idx allele_j
  if input_j_allele = lut_missing_value ∧
      input_non_reference_allele_idx = lut_missing_value then
    { out with dest := fun s => if s = j then missing_value else out.dest s }
  else
    let resolved : Int :=
      if input_j_allele = lut_missing_value then input_non_reference_allele_idx
      else input_j_allele
    let input_j : Int := if alt_alleles_only then resolved - 1 else resolved
    { dest := fun s =>
        if s = j then input_data.getD input_j.toNat missing_value else out.dest s,
      counts := fun s => if s = j then out.counts s + 1 else out.counts s }

/-- Embedding of VariantOperations::remap_data_based_on_alleles
(lines 219-250). -/
def remap_data_based_on_alleles {α : Type} (input_data : List α) (input_call_idx : Nat)
    (alleles_LUT : CombineAllelesLUT) (num_merged_alleles : Nat)
    (NON_REF_exists alt_alleles_only : Bool)
    (remapped_data : RemapOut α) (missing_value : α) : RemapOut α :=
  let merged_non_reference_allele_idx : Int :=
    if NON_REF_exists then (num_merged_alleles : Int) - 1 else lut_missing_value
  let input_non_reference_allele_idx : Int :=
    if NON_REF_exists then
      alleles_LUT.get_input_idx_for_merged input_call_idx merged_non_reference_allele_idx
    else lut_missing_value
  let length := if alt_alleles_only then num_merged_alleles - 1 else num_merged_alleles
  (List.range length).foldl
    (remapAllelesStep input_data input_call_idx alleles_LUT
      input_non_reference_allele_idx alt_alleles_only missing_value)
    remapped_data

/-- Inner fill loop body of remap_data_based_on_genotype (lines 281-285):
write the missing value for genotype (allele_j, allele_k). -/
def remapGenotypeFillStep {α : Type} (missing_value : α) (allele_j : Nat)
    (o : RemapOut α) (allele_k : Nat) : RemapOut α :=
  { o with dest := fun s =>
      if s = gtIndex allele_j allele_k then missing_value else o.dest s }

/-- Inner loop body of remap_data_based_on_genotype (lines 291-307) for a
resolved allele_j side: resolve allele_k, write missing on failure, otherwise
copy the local genotype value at the triangular index of the resolved local
pair and bump the pair's valid-data counter. -/
def remapGenotypeInnerStep {α : Type} (input_data : List α) (input_call_idx : Nat)
    (alleles_LUT : CombineAllelesLUT) (input_non_reference_allele_idx : Int)
    (missing_value : α) (input_j_allele : Int) (allele_j : Nat)
    (o : RemapOut α) (allele_k : Nat) : RemapOut α :=
  let lookup_k := alleles_LUT.get_input_idx_for_merged input_call_idx (allele_k : Int)
  if lookup_k = lut_missing_value ∧
      input_non_reference_allele_idx = lut_missing_value then
    { o with dest := fun s =>
        if s = gtIndex allele_j allele_k then missing_value else o.dest s }
  else
    let input_k_allele : Int :=
      if lookup_k = lut_missing_value then input_non_reference_allele_idx else lookup_k
    { dest := fun s =>
        if s = gtIndex allele_j allele_k then
          input_data.getD (bcf_alleles2gt input_j_allele input_k_allele).toNat
            missing_value
        else o.dest s,
      counts := fun s =>
        if s = gtIndex allele_j allele_k then o.counts s + 1 else o.counts s }

/-- Outer loop body of remap_data_based_on_genotype over allele_j (lines
274-308): if allele_j is unresolvable and no placeholder fallback exists, fill
all pairs (allele_j, allele_k) with the missing value and continue; otherwise
run the inner loop with the resolved local index for allele_j. -/
def remapGenotypeOuterStep {α : Type} (input_data : List α) (input_call_idx : Nat)
    (alleles_LUT : CombineAllelesLUT) (input_non_reference_allele_idx : Int)
    (num_merged_alleles : Nat) (missing_value : α)
    (out : RemapOut α) (allele_j : Nat) : RemapOut α :=
  let lookup_j := alleles_LUT.get_input_idx_for_merged input_call_idx (allele_j : Int)
  if lookup_j = lut_missing_value ∧
      input_non_reference_allele_idx = lut_missing_value then
    (List.range' allele_j (num_merged_alleles - allele_j)).foldl
      (remapGenotypeFillStep missing_value allele_j) out
  else
    let input_j_allele : Int :=
      if lookup_j = lut_missing_value then input_non_reference_allele_idx else lookup_j
    (List.range' allele_j (num_merged_alleles - allele_j)).foldl
      (remapGenotypeInnerStep input_data input_call_idx alleles_LUT
        input_non_reference_allele_idx missing_value input_j_allele allele_j) out

/-- Embedding of VariantOperations::remap_data_based_on_genotype
(lines 261-309). -/
def remap_data_based_on_genotype {α : Type} (input_data : List α) (input_call_idx : Nat)
    (alleles_LUT : CombineAllelesLUT) (num_merged_alleles : Nat) (NON_REF_exists : Bool)
    (remapped_data : RemapOut α) (missing_value : α) : RemapOut α :=
  let merged_non_reference_allele_idx : Int :=
    if NON_REF_exists then (num_merged_alleles : Int) - 1 else lut_missing_value
  let input_non_reference_allele_idx : Int :=
    if NON_REF_exists then
      alleles_LUT.get_input_idx_for_merged input_call_idx merged_non_reference_allele_idx
    else lut_missing_value
  (List.range num_merged_alleles).foldl
    (remapGenotypeOuterStep input_data input_call_idx alleles_LUT
      input_non_reference_allele_idx num_merged_alleles missing_value)
    remapped_data

/-- The per-side resolution of a merged allele index to a local index used by
both remappers: direct merged→local lookup, else placeholder fallback when the
sample has the placeholder, else unresolved. -/
def resolveMergedAllele (alleles_LUT : CombineAllelesLUT) (input_call_idx : Nat)
    (input_non_reference_allele_idx : Int) (mergedIdx : Int) : Option Int :=
  let lookup := alleles_LUT.get_input_idx_for_merged input_call_idx mergedIdx
  if lookup = lut_missing_value then
    if input_non_reference_allele_idx = lut_missing_value then none
    else some input_non_reference_allele_idx
  else some lookup

/-! ### Genotype-call (GT) field remapper -/

/-- Embedding of VariantOperations::remap_GT_field (lines 195-205).  The C++
writes into an output array asserted to have the input's size and asserts that
every translated index is non-missing; the assertion is modelled as a loud
failure (Except.error), so a successful run returns the fully translated
array. -/
def remap_GT_field (alleles_LUT : CombineAllelesLUT) (input_call_idx : Nat) :
    List Int → Except String (List Int)
  | [] => Except.ok []
  | g :: rest =>
    let output_allele_idx := alleles_LUT.get_merged_idx_for_input input_call_idx g
    if output_allele_idx = lut_missing_value then
      Except.error "unresolved genotype call index"
    else
      match remap_GT_field alleles_LUT input_call_idx rest with
      | Except.error e => Except.error e
      | Except.ok out => Except.ok (output_allele_idx :: out)

/-! ### Operators -/

/-- State of SingleVariantOperatorBase (member buffers reused across
positions). -/
structure SingleVariantOperatorBase where
  m_alleles_LUT : CombineAllelesLUT
  m_merged_reference_allele : Str
  m_merged_alt_alleles : List Str
  m_NON_REF_exists : Bool

/-- Embedding of SingleVariantOperatorBase::clear (lines 384-391): reset the
table, clear the merged reference and the merged alt list. -/
def SingleVariantOperatorBase.clear (s : SingleVariantOperatorBase) :
    SingleVariantOperatorBase :=
  { s with
    m_alleles_LUT := s.m_alleles_LUT.reset_luts,
    m_merged_reference_allele := [],
    m_merged_alt_alleles := [] }

/-- Embedding of SingleVariantOperatorBase::operate (lines 393-404): merge the
reference into the existing member buffer (no clearing), then merge the alt
alleles. -/
def SingleVariantOperatorBase.operate (s : SingleVariantOperatorBase)
    (variant : Variant) : SingleVariantOperatorBase :=
  let merged_ref := merge_reference_allele variant s.m_merged_reference_allele
  let res := merge_alt_alleles variant merged_ref
    (s.m_alleles_LUT.resize_luts_if_needed variant.length)
  { m_alleles_LUT := res.alleles_LUT,
    m_merged_reference_allele := merged_ref,
    m_merged_alt_alleles := res.merged_alt_alleles,
    m_NON_REF_exists := res.NON_REF_exists }

/-- A call together with its start coordinate, for the Init substitution. -/
structure PositionedCall where
  column_begin : Nat
  ref : Str
  alts : List Str
deriving DecidableEq

/-- Embedding of modify_reference_if_in_middle (lines 531-540): if the call's
column begins strictly before the merge position, overwrite its REF with the
single-character placeholder "N". -/
def modify_reference_if_in_middle (curr_call : PositionedCall)
    (current_start_position : Nat) : PositionedCall :=
  if curr_call.column_begin < current_start_position then
    { curr_call with ref := "N".data }
  else curr_call

/-- Modelled from the spec: the orchestrator Init step (spec 4.6 step 1)
applies modify_reference_if_in_middle to every valid sample before the
reference merger runs.  The call site that performs this before
GA4GHOperator::operate lies outside the translated source file;
do_dummy_genotyping (lines 317-318) exhibits the same pattern in-source. -/
def orchestrator_init (variant : List (Nat × PositionedCall)) (pos : Nat) :
    List (Nat × PositionedCall) :=
  variant.map (fun cv => (cv.1, modify_reference_if_in_middle cv.2 pos))

/-- Forget the coordinates, yielding the call list consumed by the mergers. -/
def stripPositions (variant : List (Nat × PositionedCall)) : Variant :=
  variant.map (fun cv => (cv.1, ⟨cv.2.ref, cv.2.alts⟩))

/-- The element-type tags dispatched by the switch in GA4GHOperator::operate
(lines 462-494); `unhandled` stands for any element type outside the eight
recognized tags, carrying the numeric tag that the default case reports. -/
inductive VariantFieldTypeEnum where
  | VARIANT_FIELD_INT
  | VARIANT_FIELD_INT64_T
  | VARIANT_FIELD_UNSIGNED
  | VARIANT_FIELD_UINT64_T
  | VARIANT_FIELD_FLOAT
  | VARIANT_FIELD_DOUBLE
  | VARIANT_FIELD_STRING
  | VARIANT_FIELD_CHAR
  | unhandled (tag : Nat)
deriving DecidableEq

/-- Selects the default (unrecognized) case of the switch: some tag when the
element type is outside the eight recognized tags. -/
def unhandledTag : VariantFieldTypeEnum → Option Nat
  | .unhandled tag => some tag
  | _ => none

/-- Embedding of the element-type dispatch of GA4GHOperator::operate over the
queried allele-dependent fields (lines 441-497): each recognized type runs
REMAP_MACRO and processing moves on to the next field; the default case prints
the offending type to stderr and calls exit(-1), terminating the whole
process.  Returns the list of field types remapped before any exit and
(some tag) if the process exited while reporting that type. -/
def GA4GHOperator_dispatch_fields : List VariantFieldTypeEnum →
    List VariantFieldTypeEnum × Option Nat
  | [] => ([], none)
  | t :: rest =>
    match unhandledTag t with
    | some tag => ([], some tag)
    | none =>
      let r := GA4GHOperator_dispatch_fields rest
      (t :: r.1, r.2)

/-- Concrete table used by witnesses: for call 0, local 0 ↔ merged 0 and
local 1 ↔ merged 2. -/
def lutA : CombineAllelesLUT :=
  (emptyLUT.add_input_merged_idx_pair 0 0 0).add_input_merged_idx_pair 0 1 2

/-- Concrete table used by witnesses: for call 0, local 0 ↔ merged 0 and
local 1 ↔ merged 1. -/
def lutB : CombineAllelesLUT :=
  (emptyLUT.add_input_merged_idx_pair 0 0 0).add_input_merged_idx_pair 0 1 1

/-- Concrete positioned calls used by witnesses. -/
def posCallsA : List (Nat × PositionedCall) :=
  [(0, ⟨0, "A".data, []⟩), (1, ⟨5, "T".data, []⟩)]

/-- Concrete positioned calls used by witnesses: as posCallsA but with a
different reference on the call that starts before the merge position. -/
def posCallsB : List (Nat × PositionedCall) :=
  [(0, ⟨0, "G".data, []⟩), (1, ⟨5, "T".data, []⟩)]

theorem isPrefixList_refl (l : Str) : isPrefixList l l := (List.take_length l).symm

theorem isPrefixList_length_le {s l : Str} (h : isPrefixList s l) :
    s.length ≤ l.length := by
  have h2 := congrArg List.length h
  simp only [List.length_take] at h2
  omega

theorem isPrefixList_append_drop {s l : Str} (h : isPrefixList s l) :
    s ++ l.drop s.length = l := by
  nth_rewrite 1 [h]
  exact List.take_append_drop s.length l

theorem isPrefixList_extend {s l : Str} (t : Str) (h : isPrefixList s l) :
    isPrefixList s (l ++ t) := by
  have hle := isPrefixList_length_le h
  show s = (l ++ t).take s.length
  rw [List.take_append_of_le_length hle]
  exact h

theorem isPrefixList_antisymm_len {s l : Str} (h : isPrefixList s l)
    (hl : l.length ≤ s.length) : s = l := by
  have h2 := congrArg List.length h
  simp only [List.length_take] at h2
  have hlen : s.length = l.length := by omega
  rw [h, hlen, List.take_length]

theorem isPrefixList_mid {s : Str} (h : isPrefixList s ("N".data)) (hne : s ≠ []) :
    s = "N".data := by
  have hle := isPrefixList_length_le h
  have hpos : 0 < s.length := List.length_pos.mpr hne
  have hN : ("N".data).length = 1 := rfl
  exact isPrefixList_antisymm_len h (by omega)

theorem merge_ref_step_extends_or_replaces (m c : Str) :
    (∃ t, merge_ref_step m c = m ++ t) ∨ merge_ref_step m c = c := by
  unfold merge_ref_step
  split_ifs with h1 h2 h3
  · exact Or.inr rfl
  · exact Or.inl ⟨c.drop m.length, rfl⟩
  · exact Or.inr rfl
  · exact Or.inl ⟨[], (List.append_nil m).symm⟩

theorem merge_ref_step_length_curr (m c : Str) :
    c.length ≤ (merge_ref_step m c).length := by
  unfold merge_ref_step
  split_ifs with h1 h2 h3
  · exact le_refl _
  · rw [List.length_append, List.length_drop]
    omega
  · exact le_refl _
  · omega

theorem merge_ref_step_length_mono (m c : Str) (hc : c ≠ []) :
    m.length ≤ (merge_ref_step m c).length := by
  have hcpos : 0 < c.length := List.length_pos.mpr hc
  unfold merge_ref_step
  split_ifs with h1 h2 h3
  · omega
  · rw [List.length_append, List.length_drop]
    omega
  · have hm1 : m.length = 1 := by rw [h3.1]; rfl
    omega
  · exact le_refl _

theorem merge_ref_step_preserves_prf {s m : Str} (c : Str) (hs : s ≠ [])
    (hmid : ¬ CHECK_IN_THE_MIDDLE_REF s) (h : isPrefixList s m) :
    isPrefixList s (merge_ref_step m c) := by
  unfold merge_ref_step
  split_ifs with h1 h2 h3
  · exact absurd (isPrefixList_mid (h2.2 ▸ h) hs) hmid
  · exact isPrefixList_extend _ h
  · exact absurd (isPrefixList_mid (h3.1 ▸ h) hs) hmid
  · exact h

theorem merge_ref_step_mem {variant : Variant} {m c : Str}
    (hacc : RefAcc variant m)
    (hcmem : ∃ cv ∈ variant, c = cv.2.ref)
    (hcompat : ∀ cv1 ∈ variant, ∀ cv2 ∈ variant,
      ¬ CHECK_IN_THE_MIDDLE_REF cv1.2.ref → ¬ CHECK_IN_THE_MIDDLE_REF cv2.2.ref →
      isPrefixList cv1.2.ref cv2.2.ref ∨ isPrefixList cv2.2.ref cv1.2.ref) :
    merge_ref_step m c = m ∨ merge_ref_step m c = c := by
  unfold merge_ref_step
  split_ifs with h1 h2 h3
  · exact Or.inr rfl
  · by_cases hm0 : m = []
    · subst hm0
      simp
    · have hmlen : 0 < m.length := List.length_pos.mpr hm0
      have hmid : ¬ CHECK_IN_THE_MIDDLE_REF m := fun hmid => h2 ⟨hmlen, hmid⟩
      rcases hacc with h | h | ⟨hm, cv1, hcv1, heq⟩
      · exact absurd h hm0
      · exact absurd h hmid
      · obtain ⟨cv2, hcv2, hceq⟩ := hcmem
        have hcmid : ¬ CHECK_IN_THE_MIDDLE_REF c := by
          intro hc
          have hc1 : c.length = 1 := by rw [hc]; rfl
          omega
        rcases hcompat cv1 hcv1 cv2 hcv2 (heq ▸ hm) (hceq ▸ hcmid) with hp | hp
        · rw [← heq, ← hceq] at hp
          right
          exact isPrefixList_append_drop hp
        · rw [← heq, ← hceq] at hp
          have := isPrefixList_length_le hp
          omega
  · exact Or.inr rfl
  · exact Or.inl rfl

theorem merge_ref_step_target {variant : Variant} {m c : Str}
    (hacc : RefAcc variant m)
    (hcmem : ∃ cv ∈ variant, c = cv.2.ref)
    (hcompat : ∀ cv1 ∈ variant, ∀ cv2 ∈ variant,
      ¬ CHECK_IN_THE_MIDDLE_REF cv1.2.ref → ¬ CHECK_IN_THE_MIDDLE_REF cv2.2.ref →
      isPrefixList cv1.2.ref cv2.2.ref ∨ isPrefixList cv2.2.ref cv1.2.ref)
    (hcmid : ¬ CHECK_IN_THE_MIDDLE_REF c) (hcne : c ≠ []) :
    isPrefixList c (merge_ref_step m c) := by
  unfold merge_ref_step
  split_ifs with h1 h2 h3
  · exact isPrefixList_refl c
  · by_cases hm0 : m = []
    · subst hm0
      simp only [List.length_nil, List.drop_zero, List.nil_append]
      exact isPrefixList_refl c
    · have hmlen : 0 < m.length := List.length_pos.mpr hm0
      have hmid : ¬ CHECK_IN_THE_MIDDLE_REF m := fun hmid => h2 ⟨hmlen, hmid⟩
      rcases hacc with h | h | ⟨hm, cv1, hcv1, heq⟩
      · exact absurd h hm0
      · exact absurd h hmid
      · obtain ⟨cv2, hcv2, hceq⟩ := hcmem
        rcases hcompat cv1 hcv1 cv2 hcv2 (heq ▸ hm) (hceq ▸ hcmid) with hp | hp
        · rw [← heq, ← hceq] at hp
          rw [isPrefixList_append_drop hp]
          exact isPrefixList_refl c
        · rw [← heq, ← hceq] at hp
          have := isPrefixList_length_le hp
          omega
  · exact isPrefixList_refl c
  · have hmid : ¬ CHECK_IN_THE_MIDDLE_REF m := by
      intro hm
      exact h3 ⟨hm, hcmid⟩
    rcases hacc with h | h | ⟨hm, cv1, hcv1, heq⟩
    · subst h
      have hcpos : 0 < c.length := List.length_pos.mpr hcne
      simp only [List.length_nil] at h1
      omega
    · exact absurd h hmid
    · obtain ⟨cv2, hcv2, hceq⟩ := hcmem
      rcases hcompat cv1 hcv1 cv2 hcv2 (heq ▸ hm) (hceq ▸ hcmid) with hp | hp
      · rw [← heq, ← hceq] at hp
        have hml : m.length ≤ c.length := isPrefixList_length_le hp
        have hmc : m = c := isPrefixList_antisymm_len hp (by omega)
        rw [hmc]
        exact isPrefixList_refl c
      · rw [← heq, ← hceq] at hp
        exact hp

theorem merge_ref_step_RefAcc {variant : Variant} {m c : Str}
    (hacc : RefAcc variant m)
    (hcmem : ∃ cv ∈ variant, c = cv.2.ref)
    (hcompat : ∀ cv1 ∈ variant, ∀ cv2 ∈ variant,
      ¬ CHECK_IN_THE_MIDDLE_REF cv1.2.ref → ¬ CHECK_IN_THE_MIDDLE_REF cv2.2.ref →
      isPrefixList cv1.2.ref cv2.2.ref ∨ isPrefixList cv2.2.ref cv1.2.ref) :
    RefAcc variant (merge_ref_step m c) := by
  rcases merge_ref_step_mem hacc hcmem hcompat with h | h
  · rw [h]; exact hacc
  · rw [h]
    by_cases hcmid : CHECK_IN_THE_MIDDLE_REF c
    · exact Or.inr (Or.inl hcmid)
    · obtain ⟨cv, hcv, hceq⟩ := hcmem
      exact Or.inr (Or.inr ⟨hcmid, cv, hcv, hceq⟩)

theorem merge_ref_fold_length_mono (l : Variant) (m : Str)
    (hne : ∀ cv ∈ l, cv.2.ref ≠ []) :
    m.length ≤ (l.foldl (fun m cv => merge_ref_step m cv.2.ref) m).length := by
  induction l generalizing m with
  | nil => exact le_refl _
  | cons cv t ih =>
    simp only [List.foldl_cons]
    exact le_trans (merge_ref_step_length_mono m cv.2.ref (hne cv (by simp)))
      (ih _ (fun cv' h => hne cv' (by simp [h])))

theorem merge_ref_fold_preserves_prf {s : Str} (l : Variant) (m : Str)
    (hs : s ≠ []) (hmid : ¬ CHECK_IN_THE_MIDDLE_REF s) (h : isPrefixList s m) :
    isPrefixList s (l.foldl (fun m cv => merge_ref_step m cv.2.ref) m) := by
  induction l generalizing m with
  | nil => exact h
  | cons cv t ih =>
    simp only [List.foldl_cons]
    exact ih _ (merge_ref_step_preserves_prf cv.2.ref hs hmid h)

theorem merge_ref_fold_RefAcc {variant : Variant} (l : Variant) (m : Str)
    (hsub : ∀ cv ∈ l, cv ∈ variant)
    (hacc : RefAcc variant m)
    (hcompat : ∀ cv1 ∈ variant, ∀ cv2 ∈ variant,
      ¬ CHECK_IN_THE_MIDDLE_REF cv1.2.ref → ¬ CHECK_IN_THE_MIDDLE_REF cv2.2.ref →
      isPrefixList cv1.2.ref cv2.2.ref ∨ isPrefixList cv2.2.ref cv1.2.ref) :
    RefAcc variant (l.foldl (fun m cv => merge_ref_step m cv.2.ref) m) := by
  induction l generalizing m with
  | nil => exact hacc
  | cons cv t ih =>
    simp only [List.foldl_cons]
    exact ih _ (fun cv' h => hsub cv' (by simp [h]))
      (merge_ref_step_RefAcc hacc ⟨cv, hsub cv (by simp), rfl⟩ hcompat)

/-- Claim C6 (confirmed): for every set of valid samples' reference strings
anchored at the same coordinate (formalized: all reference strings nonempty and
pairwise prefix-compatible unless one is the "N" placeholder — the documented
precondition of the merge), the merged reference produced from an empty initial
buffer has length at least the maximum individual reference length, and every
non-placeholder input reference is a prefix of it. -/
theorem merge_reference_contract_spec (variant : Variant)
    (hne : ∀ cv ∈ variant, cv.2.ref ≠ [])
    (hcompat : ∀ cv1 ∈ variant, ∀ cv2 ∈ variant,
      ¬ CHECK_IN_THE_MIDDLE_REF cv1.2.ref → ¬ CHECK_IN_THE_MIDDLE_REF cv2.2.ref →
      isPrefixList cv1.2.ref cv2.2.ref ∨ isPrefixList cv2.2.ref cv1.2.ref) :
    (∀ cv ∈ variant, cv.2.ref.length ≤ (merge_reference_allele variant []).length) ∧
    (∀ cv ∈ variant, ¬ CHECK_IN_THE_MIDDLE_REF cv.2.ref →
      isPrefixList cv.2.ref (merge_reference_allele variant [])) := by
  constructor
  · intro cv hmem
    obtain ⟨l1, l2, hsplit⟩ := List.append_of_mem hmem
    have hfold : merge_reference_allele variant [] =
        l2.foldl (fun m cv => merge_ref_step m cv.2.ref)
          (merge_ref_step (l1.foldl (fun m cv => merge_ref_step m cv.2.ref) []) cv.2.ref) := by
      rw [merge_reference_allele, hsplit, List.foldl_append, List.foldl_cons]
    rw [hfold]
    have hstep := merge_ref_step_length_curr
      (l1.foldl (fun m cv => merge_ref_step m cv.2.ref) []) cv.2.ref
    have hrest := merge_ref_fold_length_mono l2
      (merge_ref_step (l1.foldl (fun m cv => merge_ref_step m cv.2.ref) []) cv.2.ref)
      (fun cv' h => hne cv' (by rw [hsplit]; simp [h]))
    omega
  · intro cv hmem hmid
    obtain ⟨l1, l2, hsplit⟩ := List.append_of_mem hmem
    have hfold : merge_reference_allele variant [] =
        l2.foldl (fun m cv => merge_ref_step m cv.2.ref)
          (merge_ref_step (l1.foldl (fun m cv => merge_ref_step m cv.2.ref) []) cv.2.ref) := by
      rw [merge_reference_allele, hsplit, List.foldl_append, List.foldl_cons]
    rw [hfold]
    have hacc : RefAcc variant (l1.foldl (fun m cv => merge_ref_step m cv.2.ref) []) := by
      refine merge_ref_fold_RefAcc l1 [] (fun cv' h => ?_) (Or.inl rfl) hcompat
      rw [hsplit]
      simp [h]
    refine merge_ref_fold_preserves_prf l2 _ (hne cv hmem) hmid ?_
    exact merge_ref_step_target hacc ⟨cv, hmem, rfl⟩ hcompat hmid (hne cv hmem)

/-- Witness for merge_reference_contract_spec: the spec's Scenario 1 references
"T" and "TG" at one coordinate give a merged reference of length ≥ 2 with "T" a
prefix of it. -/
theorem merge_reference_contract_spec_witness :
    (("T".data).length ≤
      (merge_reference_allele [(0, ⟨"T".data, []⟩), (1, ⟨"TG".data, []⟩)] []).length) ∧
    isPrefixList "T".data
      (merge_reference_allele [(0, ⟨"T".data, []⟩), (1, ⟨"TG".data, []⟩)] []) := by
  have h := merge_reference_contract_spec
    [(0, ⟨"T".data, []⟩), (1, ⟨"TG".data, []⟩)] (by decide) (by decide)
  exact ⟨h.1 (0, ⟨"T".data, []⟩) (by decide), h.2 (0, ⟨"T".data, []⟩) (by decide) (by decide)⟩

theorem merge_ref_step_nil (c : Str) : merge_ref_step [] c = c := by
  unfold merge_ref_step
  split_ifs with h1 h2 h3
  · rfl
  · simp
  · rfl
  · simp only [List.length_nil, not_lt, Nat.le_zero, List.length_eq_zero] at h1
    rw [h1]

/-- Claim C10 (confirmed): merge_reference_allele never clears its output
parameter — each loop step either keeps/extends the current merged value or
replaces it with the sample's reference; the incoming merged string behaves
exactly like an additional leading sample reference, so the 4.1 contract can
fail for a nonempty initial buffer (stale "TG" with single input "A" yields
"TG", of which "A" is not a prefix); SingleVariantOperatorBase::clear resets
the buffers, and operate after clear computes the merged reference from the
empty buffer. -/
theorem merge_reference_no_clear_spec :
    (∀ (m c : Str), (∃ t, merge_ref_step m c = m ++ t) ∨ merge_ref_step m c = c) ∧
    (∀ (variant : Variant) (init : Str),
      merge_reference_allele variant init =
        merge_reference_allele ((0, ⟨init, []⟩) :: variant) []) ∧
    (∀ s : SingleVariantOperatorBase,
      s.clear.m_merged_reference_allele = [] ∧ s.clear.m_merged_alt_alleles = []) ∧
    (∀ (s : SingleVariantOperatorBase) (variant : Variant),
      (s.clear.operate variant).m_merged_reference_allele =
        merge_reference_allele variant []) ∧
    (merge_reference_allele [(0, ⟨"A".data, []⟩)] "TG".data = "TG".data ∧
      ¬ isPrefixList "A".data (merge_reference_allele [(0, ⟨"A".data, []⟩)] "TG".data)) := by
  refine ⟨merge_ref_step_extends_or_replaces, ?_, ?_, ?_, ?_⟩
  · intro variant init
    simp [merge_reference_allele, List.foldl_cons, merge_ref_step_nil]
  · intro s
    exact ⟨rfl, rfl⟩
  · intro s variant
    rfl
  · exact ⟨by decide, by decide⟩

/-- Claim C7 (confirmed): the genotype-call remap translates every entry of the
input array through the local→merged direction of the table, producing an
output of the same length; an entry whose translation is the MISSING sentinel
is surfaced loudly (the source's assertion, modelled as an error) — no sentinel
or untranslated value is silently written. -/
theorem remap_GT_translation_spec (alleles_LUT : CombineAllelesLUT)
    (input_call_idx : Nat) (input_GT : List Int) :
    ((∀ g ∈ input_GT,
        alleles_LUT.get_merged_idx_for_input input_call_idx g ≠ lut_missing_value) →
      remap_GT_field alleles_LUT input_call_idx input_GT =
        Except.ok (input_GT.map
          (fun g => alleles_LUT.get_merged_idx_for_input input_call_idx g)) ∧
      (input_GT.map
          (fun g => alleles_LUT.get_merged_idx_for_input input_call_idx g)).length
        = input_GT.length) ∧
    ((∃ g ∈ input_GT,
        alleles_LUT.get_merged_idx_for_input input_call_idx g = lut_missing_value) →
      remap_GT_field alleles_LUT input_call_idx input_GT =
        Except.error "unresolved genotype call index") := by
  induction input_GT with
  | nil =>
    constructor
    · intro _
      exact ⟨rfl, rfl⟩
    · rintro ⟨g, hg, _⟩
      cases hg
  | cons g rest ih =>
    constructor
    · intro h
      have hg := h g (by simp)
      have hrest := (ih.1 (fun x hx => h x (by simp [hx]))).1
      constructor
      · simp only [remap_GT_field, if_neg hg, hrest, List.map_cons]
      · simp
    · rintro ⟨x, hx, hmiss⟩
      rcases List.mem_cons.mp hx with rfl | hx'
      · simp only [remap_GT_field, if_pos hmiss]
      · by_cases hg : alleles_LUT.get_merged_idx_for_input input_call_idx g
            = lut_missing_value
        · simp only [remap_GT_field, if_pos hg]
        · simp only [remap_GT_field, if_neg hg, ih.2 ⟨x, hx', hmiss⟩]

/-- Witness for remap_GT_translation_spec: with the concrete table lutA,
[0, 1] translates to [0, 2] and the untranslatable [5] errors. -/
theorem remap_GT_translation_spec_witness :
    remap_GT_field lutA 0 [0, 1] = Except.ok [0, 2] ∧
    remap_GT_field lutA 0 [5] = Except.error "unresolved genotype call index" := by
  constructor
  · have h := (remap_GT_translation_spec lutA 0 [0, 1]).1 (by decide)
    exact h.1.trans (congrArg Except.ok (by decide))
  · exact (remap_GT_translation_spec lutA 0 [5]).2 ⟨5, by decide, by decide⟩

/-- Claim C8 counterexample: with an unrecognized element type followed by a
recognized INT field, the dispatch terminates the whole process (reporting tag
99) and the remaining INT field is NOT processed — refuting "aborts processing
of that field only, and continues processing the remaining queried fields". -/
theorem ga4gh_unhandled_type_counterexample :
    GA4GHOperator_dispatch_fields
      [VariantFieldTypeEnum.unhandled 99, VariantFieldTypeEnum.VARIANT_FIELD_INT] =
      ([], some 99) ∧
    VariantFieldTypeEnum.VARIANT_FIELD_INT ∉
      (GA4GHOperator_dispatch_fields
        [VariantFieldTypeEnum.unhandled 99,
         VariantFieldTypeEnum.VARIANT_FIELD_INT]).1 := by
  exact ⟨rfl, by decide⟩

/-- Claim C8 amended (proved): on the first unrecognized element type the
dispatch reports the offending type and terminates the entire process
(exit(-1)); only the fields before it were processed and no remaining field of
the position is processed. -/
theorem ga4gh_unhandled_type_amended (pre post : List VariantFieldTypeEnum) (tag : Nat)
    (hpre : ∀ t ∈ pre, unhandledTag t = none) :
    GA4GHOperator_dispatch_fields (pre ++ VariantFieldTypeEnum.unhandled tag :: post) =
      (pre, some tag) := by
  induction pre with
  | nil => rfl
  | cons t rest ih =>
    have ht : unhandledTag t = none := hpre t (by simp)
    have hrest := ih (fun x hx => hpre x (by simp [hx]))
    simp only [List.cons_append, GA4GHOperator_dispatch_fields, ht]
    rw [show rest.append (VariantFieldTypeEnum.unhandled tag :: post) =
        rest ++ VariantFieldTypeEnum.unhandled tag :: post from rfl, hrest]

/-- Witness for ga4gh_unhandled_type_amended at a concrete field list. -/
theorem ga4gh_unhandled_type_amended_witness :
    GA4GHOperator_dispatch_fields
      [VariantFieldTypeEnum.VARIANT_FIELD_INT, VariantFieldTypeEnum.unhandled 7] =
      ([VariantFieldTypeEnum.VARIANT_FIELD_INT], some 7) := by
  have h := ga4gh_unhandled_type_amended [VariantFieldTypeEnum.VARIANT_FIELD_INT] []
    7 (by decide)
  simpa using h

/-- Claim C9 (confirmed; the Init step's call site is spec-modelled): the Init
substitution replaces the reference of every valid sample starting strictly
before the merge position with the single-character placeholder "N", leaves
later-starting samples untouched, and makes the position's processing — in
particular the merged reference — independent of the original reference
strings of the early-starting samples (they never participate as real data). -/
theorem orchestrator_init_substitution_spec
    (variant variant' : List (Nat × PositionedCall)) (pos : Nat)
    (hlen : variant.length = variant'.length)
    (hsame : ∀ p cv cv', variant.get? p = some cv → variant'.get? p = some cv' →
      cv.1 = cv'.1 ∧ cv.2.column_begin = cv'.2.column_begin ∧ cv.2.alts = cv'.2.alts ∧
      (pos ≤ cv.2.column_begin → cv.2.ref = cv'.2.ref)) :
    (∀ cv ∈ orchestrator_init variant pos,
      cv.2.column_begin < pos → cv.2.ref = "N".data) ∧
    (∀ p cv, variant.get? p = some cv → pos ≤ cv.2.column_begin →
      (orchestrator_init variant pos).get? p = some cv) ∧
    orchestrator_init variant pos = orchestrator_init variant' pos ∧
    merge_reference_allele (stripPositions (orchestrator_init variant pos)) [] =
      merge_reference_allele (stripPositions (orchestrator_init variant' pos)) [] := by
  have hmain : orchestrator_init variant pos = orchestrator_init variant' pos := by
    apply List.ext_get?
    intro p
    rw [orchestrator_init, orchestrator_init, List.get?_map, List.get?_map]
    cases h1 : variant.get? p with
    | none =>
      have hlen1 : variant.length ≤ p := List.get?_eq_none.mp h1
      have h2 : variant'.get? p = none := List.get?_eq_none.mpr (by omega)
      rw [h2]
    | some cv =>
      cases h2 : variant'.get? p with
      | none =>
        have hlen2 : variant'.length ≤ p := List.get?_eq_none.mp h2
        have hplt : p < variant.length := by
          by_contra hge
          rw [List.get?_eq_none.mpr (by omega)] at h1
          cases h1
        omega
      | some cv' =>
        obtain ⟨hfst, hcol, halts, href⟩ := hsame p cv cv' h1 h2
        simp only [Option.map_some']
        have hmod : modify_reference_if_in_middle cv.2 pos =
            modify_reference_if_in_middle cv'.2 pos := by
          unfold modify_reference_if_in_middle
          by_cases hc : cv.2.column_begin < pos
          · rw [if_pos hc, if_pos (hcol ▸ hc)]
            rw [show ({ cv.2 with ref := "N".data } : PositionedCall)
                  = ⟨cv.2.column_begin, "N".data, cv.2.alts⟩ from rfl,
                show ({ cv'.2 with ref := "N".data } : PositionedCall)
                  = ⟨cv'.2.column_begin, "N".data, cv'.2.alts⟩ from rfl,
                hcol, halts]
          · rw [if_neg hc, if_neg (hcol ▸ hc)]
            rw [show (cv.2 : PositionedCall)
                  = ⟨cv.2.column_begin, cv.2.ref, cv.2.alts⟩ from rfl,
                show (cv'.2 : PositionedCall)
                  = ⟨cv'.2.column_begin, cv'.2.ref, cv'.2.alts⟩ from rfl,
                hcol, halts, href (le_of_not_lt hc)]
        rw [hfst, hmod]
  refine ⟨?_, ?_, hmain, by rw [hmain]⟩
  · intro cv hcv hlt
    obtain ⟨cv0, hmem, rfl⟩ := List.mem_map.mp hcv
    have hcolsame : (modify_reference_if_in_middle cv0.2 pos).column_begin
        = cv0.2.column_begin := by
      rw [modify_reference_if_in_middle]
      split_ifs <;> rfl
    by_cases h : cv0.2.column_begin < pos
    · show (modify_reference_if_in_middle cv0.2 pos).ref = "N".data
      rw [modify_reference_if_in_middle, if_pos h]
    · exact absurd (hcolsame ▸ hlt) h
  · intro p cv h1 hge
    rw [orchestrator_init, List.get?_map, h1, Option.map_some']
    have hmod : modify_reference_if_in_middle cv.2 pos = cv.2 := by
      rw [modify_reference_if_in_middle, if_neg (not_lt.mpr hge)]
    rw [hmod]

/-- Witness for orchestrator_init_substitution_spec at concrete inputs: two
call lists differing only in the reference of the call starting before merge
position 3 yield identical Init results, and the later-starting call passes
through untouched. -/
theorem orchestrator_init_substitution_spec_witness :
    orchestrator_init posCallsA 3 = orchestrator_init posCallsB 3 ∧
    (orchestrator_init posCallsA 3).get? 1 = some (1, ⟨5, "T".data, []⟩) := by
  have h := orchestrator_init_substitution_spec posCallsA posCallsB 3 rfl ?hs
  · exact ⟨h.2.2.1, h.2.1 1 (1, ⟨5, "T".data, []⟩) rfl (by decide)⟩
  case hs =>
    intro p cv cv' h1 h2
    match p with
    | 0 =>
      rw [show posCallsA.get? 0 = some (0, ⟨0, "A".data, []⟩) from rfl] at h1
      rw [show posCallsB.get? 0 = some (0, ⟨0, "G".data, []⟩) from rfl] at h2
      have hA := Option.some.inj h1
      have hB := Option.some.inj h2
      subst hA
      subst hB
      exact ⟨rfl, rfl, rfl, fun hcontra => absurd hcontra (by decide)⟩
    | 1 =>
      rw [show posCallsA.get? 1 = some (1, ⟨5, "T".data, []⟩) from rfl] at h1
      rw [show posCallsB.get? 1 = some (1, ⟨5, "T".data, []⟩) from rfl] at h2
      have hA := Option.some.inj h1
      have hB := Option.some.inj h2
      subst hA
      subst hB
      exact ⟨rfl, rfl, rfl, fun _ => rfl⟩
    | (n + 2) =>
      rw [show posCallsA.get? (n + 2) = none from rfl] at h1
      cases h1

theorem triangle_succ (k : Nat) : (k + 1) * (k + 2) / 2 = k * (k + 1) / 2 + (k + 1) := by
  obtain ⟨m, hm⟩ := Nat.even_mul_succ_self k
  have h1 : (k + 1) * (k + 2) = k * (k + 1) + 2 * (k + 1) := by ring
  omega

theorem triangle_mono {k k' : Nat} (h : k ≤ k') :
    k * (k + 1) / 2 ≤ k' * (k' + 1) / 2 :=
  Nat.div_le_div_right (Nat.mul_le_mul h (by omega))

theorem gtIndex_of_le {j k : Nat} (h : j ≤ k) : gtIndex j k = j + k * (k + 1) / 2 := by
  rw [gtIndex, if_neg (by omega)]

theorem gtIndex_inj {j k j' k' : Nat} (h1 : j ≤ k) (h2 : j' ≤ k')
    (he : gtIndex j k = gtIndex j' k') : j = j' ∧ k = k' := by
  rw [gtIndex_of_le h1, gtIndex_of_le h2] at he
  rcases Nat.lt_trichotomy k k' with hlt | heq | hgt
  · exfalso
    have hm : (k + 1) * (k + 1 + 1) / 2 ≤ k' * (k' + 1) / 2 := triangle_mono hlt
    have hs := triangle_succ k
    have he2 : (k + 1) * (k + 1 + 1) = (k + 1) * (k + 2) := by ring
    rw [he2] at hm
    omega
  · subst heq
    omega
  · exfalso
    have hm : (k' + 1) * (k' + 1 + 1) / 2 ≤ k * (k + 1) / 2 := triangle_mono hgt
    have hs := triangle_succ k'
    have he2 : (k' + 1) * (k' + 1 + 1) = (k' + 1) * (k' + 2) := by ring
    rw [he2] at hm
    omega

theorem foldl_remap_untouched {α : Type} (f : RemapOut α → Nat → RemapOut α)
    (s0 : Nat) :
    ∀ l : List Nat,
    (∀ o b, b ∈ l → (f o b).dest s0 = o.dest s0 ∧ (f o b).counts s0 = o.counts s0) →
    ∀ out : RemapOut α, (l.foldl f out).dest s0 = out.dest s0 ∧
      (l.foldl f out).counts s0 = out.counts s0 := by
  intro l
  induction l with
  | nil => exact fun _ _ => ⟨rfl, rfl⟩
  | cons b t ih =>
    intro h out
    simp only [List.foldl_cons]
    have hb := h out b (by simp)
    have ht := ih (fun o b' hb' => h o b' (by simp [hb'])) (f out b)
    exact ⟨ht.1.trans hb.1, ht.2.trans hb.2⟩

theorem foldl_remap_write_once {α : Type} (f : RemapOut α → Nat → RemapOut α)
    (s0 b0 : Nat) (v0 : α) (c0 : Nat)
    (hwrite : ∀ o : RemapOut α, (f o b0).dest s0 = v0 ∧
      (f o b0).counts s0 = o.counts s0 + c0) :
    ∀ l : List Nat, l.Nodup → b0 ∈ l →
    (∀ o b, b ∈ l → b ≠ b0 →
      (f o b).dest s0 = o.dest s0 ∧ (f o b).counts s0 = o.counts s0) →
    ∀ out : RemapOut α, (l.foldl f out).dest s0 = v0 ∧
      (l.foldl f out).counts s0 = out.counts s0 + c0 := by
  intro l
  induction l with
  | nil => exact fun _ hb0 => absurd hb0 (List.not_mem_nil b0)
  | cons b t ih =>
    intro hnd hb0 hpres out
    simp only [List.foldl_cons]
    rcases List.mem_cons.mp hb0 with rfl | hb0t
    · have hnotin : b0 ∉ t := (List.nodup_cons.mp hnd).1
      have hw := hwrite out
      have hu := foldl_remap_untouched f s0 t
        (fun o b' hb' => hpres o b' (by simp [hb']) (fun he => hnotin (he ▸ hb')))
        (f out b0)
      exact ⟨hu.1.trans hw.1, by rw [hu.2, hw.2]⟩
    · have hbne : b ≠ b0 := by
        rintro rfl
        exact (List.nodup_cons.mp hnd).1 hb0t
      have hp := hpres out b (by simp) hbne
      have hrec := ih (List.nodup_cons.mp hnd).2 hb0t
        (fun o b' hb' hne => hpres o b' (by simp [hb']) hne) (f out b)
      exact ⟨hrec.1, by rw [hrec.2, hp.2]⟩

theorem resolveMergedAllele_none_iff (lut : CombineAllelesLUT) (c : Nat) (inr x : Int) :
    resolveMergedAllele lut c inr x = none ↔
    (lut.get_input_idx_for_merged c x = lut_missing_value ∧
      inr = lut_missing_value) := by
  unfold resolveMergedAllele
  by_cases h1 : lut.get_input_idx_for_merged c x = lut_missing_value
  · by_cases h2 : inr = lut_missing_value
    · simp [h1, h2]
    · simp [h1, h2]
  · simp [h1]

theorem resolveMergedAllele_some_iff (lut : CombineAllelesLUT) (c : Nat) (inr x r : Int) :
    resolveMergedAllele lut c inr x = some r ↔
    (¬ (lut.get_input_idx_for_merged c x = lut_missing_value ∧
        inr = lut_missing_value) ∧
      (if lut.get_input_idx_for_merged c x = lut_missing_value then inr
       else lut.get_input_idx_for_merged c x) = r) := by
  unfold resolveMergedAllele
  by_cases h1 : lut.get_input_idx_for_merged c x = lut_missing_value
  · by_cases h2 : inr = lut_missing_value
    · simp [h1, h2]
    · simp [h1, h2]
  · simp [h1]

theorem remapAllelesStep_other {α : Type} (input_data : List α) (c : Nat)
    (lut : CombineAllelesLUT) (inr : Int) (alt : Bool) (mv : α)
    (o : RemapOut α) (b s0 : Nat) (h : s0 ≠ b) :
    (remapAllelesStep input_data c lut inr alt mv o b).dest s0 = o.dest s0 ∧
    (remapAllelesStep input_data c lut inr alt mv o b).counts s0 = o.counts s0 := by
  simp only [remapAllelesStep]
  by_cases h1 : lut.get_input_idx_for_merged c
      (if alt then (b : Int) + 1 else (b : Int)) = lut_missing_value ∧
      inr = lut_missing_value
  · rw [if_pos h1]
    exact ⟨by simp [h], rfl⟩
  · rw [if_neg h1]
    exact ⟨by simp [h], by simp [h]⟩

theorem remapAllelesStep_self {α : Type} (input_data : List α) (c : Nat)
    (lut : CombineAllelesLUT) (inr : Int) (alt : Bool) (mv : α) (b : Nat)
    (o : RemapOut α) :
    ((resolveMergedAllele lut c inr (if alt then (b : Int) + 1 else (b : Int)) = none →
      (remapAllelesStep input_data c lut inr alt mv o b).dest b = mv ∧
      (remapAllelesStep input_data c lut inr alt mv o b).counts b = o.counts b) ∧
     (∀ r, resolveMergedAllele lut c inr
          (if alt then (b : Int) + 1 else (b : Int)) = some r →
      (remapAllelesStep input_data c lut inr alt mv o b).dest b =
        input_data.getD (if alt then r - 1 else r).toNat mv ∧
      (remapAllelesStep input_data c lut inr alt mv o b).counts b = o.counts b + 1)) := by
  constructor
  · intro hres
    obtain ⟨hl, hi⟩ := (resolveMergedAllele_none_iff lut c inr _).mp hres
    simp only [remapAllelesStep, if_pos (And.intro hl hi)]
    constructor
    · simp
    · simp
  · intro r hres
    rw [resolveMergedAllele_some_iff] at hres
    obtain ⟨hcond, hval⟩ := hres
    simp only [remapAllelesStep, if_neg hcond]
    constructor
    · simp [hval]
    · simp

/-- Claim C2 (confirmed): allele-indexed remap.  For every merged slot j in the
requested range: a direct merged→local mapping (merged index j+1 in alt-only
mode, j otherwise) copies the local value, shifted by -1 in alt-only mode, into
destination slot j and bumps the slot's valid-data counter; with no mapping but
a placeholder fallback the fallback's local index is the source; with neither,
the missing value is written and the loop continues (every other slot is still
processed).  Under the table well-formedness used by the source's assertion
(merged indices ≥ 1 map to local indices ≥ 1 or MISSING), every resolved local
index in alt-only mode is strictly positive.  Consequently, when every slot in
range resolves, every destination slot equals the corresponding local value
under the index mapping. -/
theorem remap_alleles_slotwise_spec {α : Type} (input_data : List α)
    (input_call_idx : Nat) (alleles_LUT : CombineAllelesLUT)
    (num_merged_alleles : Nat) (NON_REF_exists alt_alleles_only : Bool)
    (remapped_data : RemapOut α) (missing_value : α)
    (hpos : alt_alleles_only = true → ∀ m : Int, 1 ≤ m →
      alleles_LUT.get_input_idx_for_merged input_call_idx m = lut_missing_value ∨
      1 ≤ alleles_LUT.get_input_idx_for_merged input_call_idx m) :
    let inr : Int := if NON_REF_exists then
        alleles_LUT.get_input_idx_for_merged input_call_idx
          (if NON_REF_exists then (num_merged_alleles : Int) - 1 else lut_missing_value)
      else lut_missing_value
    let out := remap_data_based_on_alleles input_data input_call_idx alleles_LUT
        num_merged_alleles NON_REF_exists alt_alleles_only remapped_data missing_value
    let len := if alt_alleles_only then num_merged_alleles - 1 else num_merged_alleles
    (∀ j, j < len →
      (resolveMergedAllele alleles_LUT input_call_idx inr
          (if alt_alleles_only then (j : Int) + 1 else (j : Int)) = none →
        out.dest j = missing_value ∧ out.counts j = remapped_data.counts j) ∧
      (∀ r, resolveMergedAllele alleles_LUT input_call_idx inr
          (if alt_alleles_only then (j : Int) + 1 else (j : Int)) = some r →
        out.dest j =
          input_data.getD (if alt_alleles_only then r - 1 else r).toNat missing_value ∧
        out.counts j = remapped_data.counts j + 1 ∧
        (alt_alleles_only = true → 1 ≤ r))) ∧
    ((∀ j, j < len → resolveMergedAllele alleles_LUT input_call_idx inr
        (if alt_alleles_only then (j : Int) + 1 else (j : Int)) ≠ none) →
      ∀ j, j < len → ∃ r, resolveMergedAllele alleles_LUT input_call_idx inr
          (if alt_alleles_only then (j : Int) + 1 else (j : Int)) = some r ∧
        out.dest j =
          input_data.getD (if alt_alleles_only then r - 1 else r).toNat missing_value) := by
  intro inr out len
  have hout : out = (List.range len).foldl
      (remapAllelesStep input_data input_call_idx alleles_LUT inr alt_alleles_only
        missing_value) remapped_data := rfl
  have hmain : ∀ j, j < len →
      (resolveMergedAllele alleles_LUT input_call_idx inr
          (if alt_alleles_only then (j : Int) + 1 else (j : Int)) = none →
        out.dest j = missing_value ∧ out.counts j = remapped_data.counts j) ∧
      (∀ r, resolveMergedAllele alleles_LUT input_call_idx inr
          (if alt_alleles_only then (j : Int) + 1 else (j : Int)) = some r →
        out.dest j =
          input_data.getD (if alt_alleles_only then r - 1 else r).toNat missing_value ∧
        out.counts j = remapped_data.counts j + 1 ∧
        (alt_alleles_only = true → 1 ≤ r)) := by
    intro j hj
    have hjmem : j ∈ List.range len := List.mem_range.mpr hj
    cases hres : resolveMergedAllele alleles_LUT input_call_idx inr
        (if alt_alleles_only then (j : Int) + 1 else (j : Int)) with
    | none =>
      have hw := foldl_remap_write_once
        (remapAllelesStep input_data input_call_idx alleles_LUT inr
          alt_alleles_only missing_value) j j missing_value 0
        (fun o => by
          have hs := (remapAllelesStep_self input_data input_call_idx alleles_LUT inr
            alt_alleles_only missing_value j o).1 hres
          exact ⟨hs.1, hs.2.trans (Nat.add_zero (o.counts j)).symm⟩)
        (List.range len) (List.nodup_range len) hjmem
        (fun o b _ hne => remapAllelesStep_other input_data input_call_idx alleles_LUT
          inr alt_alleles_only missing_value o b j (fun he => hne (he.symm)))
        remapped_data
      constructor
      · intro _
        rw [hout]
        exact ⟨hw.1, hw.2⟩
      · intro r hr
        cases hr
    | some r0 =>
      have hw := foldl_remap_write_once
        (remapAllelesStep input_data input_call_idx alleles_LUT inr
          alt_alleles_only missing_value) j j
        (input_data.getD (if alt_alleles_only then r0 - 1 else r0).toNat missing_value) 1
        (fun o => (remapAllelesStep_self input_data input_call_idx alleles_LUT inr
          alt_alleles_only missing_value j o).2 r0 hres)
        (List.range len) (List.nodup_range len) hjmem
        (fun o b _ hne => remapAllelesStep_other input_data input_call_idx alleles_LUT
          inr alt_alleles_only missing_value o b j (fun he => hne (he.symm)))
        remapped_data
      constructor
      · intro hcontra
        cases hcontra
      · intro r hr
        have hrr : r0 = r := Option.some.inj hr
        subst hrr
        refine ⟨by rw [hout]; exact hw.1, by rw [hout]; exact hw.2, ?_⟩
        intro halt
        rw [resolveMergedAllele_some_iff] at hres
        obtain ⟨hcond, hval⟩ := hres
        by_cases hlm : alleles_LUT.get_input_idx_for_merged input_call_idx
            (if alt_alleles_only then (j : Int) + 1 else (j : Int)) = lut_missing_value
        · rw [if_pos hlm] at hval
          have hinr : inr ≠ lut_missing_value := fun hc => hcond ⟨hlm, hc⟩
          have hNR : NON_REF_exists = true := by
            by_contra hNRf
            have : inr = lut_missing_value := by
              show (if NON_REF_exists then _ else lut_missing_value) = lut_missing_value
              rw [if_neg hNRf]
            exact hinr this
          have hlen : len = num_merged_alleles - 1 := by
            show (if alt_alleles_only = true then num_merged_alleles - 1
              else num_merged_alleles) = num_merged_alleles - 1
            rw [if_pos halt]
          have hnum2 : 2 ≤ num_merged_alleles := by
            rw [hlen] at hj
            omega
          have hinr_eq : inr = alleles_LUT.get_input_idx_for_merged input_call_idx
              ((num_merged_alleles : Int) - 1) := by
            show (if NON_REF_exists then _ else lut_missing_value) = _
            rw [if_pos hNR, if_pos hNR]
          have hge : (1 : Int) ≤ (num_merged_alleles : Int) - 1 := by omega
          rcases hpos halt ((num_merged_alleles : Int) - 1) hge with hc | hc
          · rw [hinr_eq] at hinr
            exact absurd hc hinr
          · rw [← hinr_eq] at hc
            rw [← hval]
            exact hc
        · rw [if_neg hlm] at hval
          have hge : (1 : Int) ≤ (if alt_alleles_only then (j : Int) + 1 else (j : Int)) := by
            rw [if_pos halt]
            omega
          rcases hpos halt _ hge with hc | hc
          · exact absurd hc hlm
          · rw [← hval]
            exact hc
  constructor
  · exact hmain
  · intro hall j hj
    cases hres : resolveMergedAllele alleles_LUT input_call_idx inr
        (if alt_alleles_only then (j : Int) + 1 else (j : Int)) with
    | none => exact absurd hres (hall j hj)
    | some r => exact ⟨r, rfl, ((hmain j hj).2 r hres).1⟩

/-- Witness for remap_alleles_slotwise_spec: with table lutB, two merged
alleles, all-alleles mode and input [10, 20], slot 1 receives the local value
20 and its valid-data counter becomes 1. -/
theorem remap_alleles_slotwise_spec_witness :
    (remap_data_based_on_alleles [10, 20] 0 lutB 2 false false
      ⟨fun _ => 0, fun _ => 0⟩ ((-99 : Int))).dest 1 = 20 ∧
    (remap_data_based_on_alleles [10, 20] 0 lutB 2 false false
      ⟨fun _ => 0, fun _ => 0⟩ ((-99 : Int))).counts 1 = 1 := by
  have h := remap_alleles_slotwise_spec [10, 20] 0 lutB 2 false false
    ⟨fun _ => 0, fun _ => 0⟩ (-99 : Int) (fun hc => absurd hc (by decide))
  have h2 := (h.1 1 (by decide)).2 1 (by decide)
  exact ⟨h2.1.trans (by decide), h2.2.1.trans (by decide)⟩

theorem gtIndex_ne_of_ne_fst {j0 k0 b ak : Nat} (hj0 : j0 ≤ k0) (hb : b ≤ ak)
    (hne : b ≠ j0) : gtIndex j0 k0 ≠ gtIndex b ak :=
  fun he => hne ((gtIndex_inj hj0 hb he).1.symm)

theorem gtIndex_ne_of_ne_snd {j0 k0 ak : Nat} (hj0 : j0 ≤ k0) (hak : j0 ≤ ak)
    (hne : ak ≠ k0) : gtIndex j0 k0 ≠ gtIndex j0 ak :=
  fun he => hne ((gtIndex_inj hj0 hak he).2.symm)

theorem remapGenotypeFillStep_other {α : Type} (mv : α) (aj : Nat) (o : RemapOut α)
    (ak s0 : Nat) (h : s0 ≠ gtIndex aj ak) :
    (remapGenotypeFillStep mv aj o ak).dest s0 = o.dest s0 ∧
    (remapGenotypeFillStep mv aj o ak).counts s0 = o.counts s0 := by
  unfold remapGenotypeFillStep
  exact ⟨by simp [h], rfl⟩

theorem remapGenotypeFillStep_self {α : Type} (mv : α) (aj : Nat) (o : RemapOut α)
    (ak : Nat) :
    (remapGenotypeFillStep mv aj o ak).dest (gtIndex aj ak) = mv ∧
    (remapGenotypeFillStep mv aj o ak).counts (gtIndex aj ak)
      = o.counts (gtIndex aj ak) := by
  unfold remapGenotypeFillStep
  exact ⟨by simp, rfl⟩

theorem remapGenotypeInnerStep_other {α : Type} (input_data : List α) (c : Nat)
    (lut : CombineAllelesLUT) (inr : Int) (mv : α) (ija : Int) (aj : Nat)
    (o : RemapOut α) (ak s0 : Nat) (h : s0 ≠ gtIndex aj ak) :
    (remapGenotypeInnerStep input_data c lut inr mv ija aj o ak).dest s0 = o.dest s0 ∧
    (remapGenotypeInnerStep input_data c lut inr mv ija aj o ak).counts s0
      = o.counts s0 := by
  simp only [remapGenotypeInnerStep]
  by_cases h1 : lut.get_input_idx_for_merged c (ak : Int) = lut_missing_value ∧
      inr = lut_missing_value
  · rw [if_pos h1]
    exact ⟨by simp [h], rfl⟩
  · rw [if_neg h1]
    exact ⟨by simp [h], by simp [h]⟩

theorem remapGenotypeInnerStep_self {α : Type} (input_data : List α) (c : Nat)
    (lut : CombineAllelesLUT) (inr : Int) (mv : α) (ija : Int) (aj : Nat)
    (o : RemapOut α) (ak : Nat) :
    ((resolveMergedAllele lut c inr (ak : Int) = none →
      (remapGenotypeInnerStep input_data c lut inr mv ija aj o ak).dest (gtIndex aj ak)
        = mv ∧
      (remapGenotypeInnerStep input_data c lut inr mv ija aj o ak).counts (gtIndex aj ak)
        = o.counts (gtIndex aj ak)) ∧
     (∀ b, resolveMergedAllele lut c inr (ak : Int) = some b →
      (remapGenotypeInnerStep input_data c lut inr mv ija aj o ak).dest (gtIndex aj ak)
        = input_data.getD (bcf_alleles2gt ija b).toNat mv ∧
      (remapGenotypeInnerStep input_data c lut inr mv ija aj o ak).counts (gtIndex aj ak)
        = o.counts (gtIndex aj ak) + 1)) := by
  constructor
  · intro hres
    obtain ⟨hl, hi⟩ := (resolveMergedAllele_none_iff lut c inr _).mp hres
    simp only [remapGenotypeInnerStep, if_pos (And.intro hl hi)]
    constructor
    · simp
    · simp
  · intro b hres
    rw [resolveMergedAllele_some_iff] at hres
    obtain ⟨hcond, hval⟩ := hres
    simp only [remapGenotypeInnerStep, if_neg hcond]
    constructor
    · simp [hval]
    · simp

theorem remapGenotypeOuterStep_other {α : Type} (input_data : List α) (c : Nat)
    (lut : CombineAllelesLUT) (inr : Int) (num : Nat) (mv : α)
    (o : RemapOut α) (b j0 k0 : Nat) (hj0 : j0 ≤ k0)
    (hne : b ≠ j0) :
    (remapGenotypeOuterStep input_data c lut inr num mv o b).dest (gtIndex j0 k0)
      = o.dest (gtIndex j0 k0) ∧
    (remapGenotypeOuterStep input_data c lut inr num mv o b).counts (gtIndex j0 k0)
      = o.counts (gtIndex j0 k0) := by
  have hslot : ∀ ak, ak ∈ List.range' b (num - b) → gtIndex j0 k0 ≠ gtIndex b ak := by
    intro ak hak
    have hm := List.mem_range'_1.mp hak
    exact gtIndex_ne_of_ne_fst hj0 hm.1 hne
  simp only [remapGenotypeOuterStep]
  by_cases h1 : lut.get_input_idx_for_merged c (b : Int) = lut_missing_value ∧
      inr = lut_missing_value
  · rw [if_pos h1]
    exact foldl_remap_untouched _ (gtIndex j0 k0) _
      (fun o' ak hak => remapGenotypeFillStep_other mv b o' ak _ (hslot ak hak)) o
  · rw [if_neg h1]
    exact foldl_remap_untouched _ (gtIndex j0 k0) _
      (fun o' ak hak => remapGenotypeInnerStep_other input_data c lut inr mv _ b o' ak _
        (hslot ak hak)) o

theorem remapGenotypeOuterStep_self {α : Type} (input_data : List α) (c : Nat)
    (lut : CombineAllelesLUT) (inr : Int) (num : Nat) (mv : α)
    (j0 k0 : Nat) (hj0 : j0 ≤ k0) (hk0 : k0 < num) :
    ((resolveMergedAllele lut c inr (j0 : Int) = none → ∀ o : RemapOut α,
      (remapGenotypeOuterStep input_data c lut inr num mv o j0).dest (gtIndex j0 k0)
        = mv ∧
      (remapGenotypeOuterStep input_data c lut inr num mv o j0).counts (gtIndex j0 k0)
        = o.counts (gtIndex j0 k0)) ∧
     (∀ a, resolveMergedAllele lut c inr (j0 : Int) = some a →
      (resolveMergedAllele lut c inr (k0 : Int) = none → ∀ o : RemapOut α,
        (remapGenotypeOuterStep input_data c lut inr num mv o j0).dest (gtIndex j0 k0)
          = mv ∧
        (remapGenotypeOuterStep input_data c lut inr num mv o j0).counts (gtIndex j0 k0)
          = o.counts (gtIndex j0 k0)) ∧
      (∀ bb, resolveMergedAllele lut c inr (k0 : Int) = some bb → ∀ o : RemapOut α,
        (remapGenotypeOuterStep input_data c lut inr num mv o j0).dest (gtIndex j0 k0)
          = input_data.getD (bcf_alleles2gt a bb).toNat mv ∧
        (remapGenotypeOuterStep input_data c lut inr num mv o j0).counts (gtIndex j0 k0)
          = o.counts (gtIndex j0 k0) + 1))) := by
  have hk0mem : k0 ∈ List.range' j0 (num - j0) :=
    List.mem_range'_1.mpr ⟨hj0, by omega⟩
  have hnd : (List.range' j0 (num - j0)).Nodup := List.nodup_range' j0 (num - j0)
  have hpresF : ∀ (o' : RemapOut α) (ak : Nat), ak ∈ List.range' j0 (num - j0) →
      ak ≠ k0 →
      (remapGenotypeFillStep mv j0 o' ak).dest (gtIndex j0 k0)
        = o'.dest (gtIndex j0 k0) ∧
      (remapGenotypeFillStep mv j0 o' ak).counts (gtIndex j0 k0)
        = o'.counts (gtIndex j0 k0) := by
    intro o' ak hak hne
    have hm := List.mem_range'_1.mp hak
    exact remapGenotypeFillStep_other mv j0 o' ak _
      (gtIndex_ne_of_ne_snd hj0 hm.1 hne)
  have hpresI : ∀ (ija : Int) (o' : RemapOut α) (ak : Nat),
      ak ∈ List.range' j0 (num - j0) → ak ≠ k0 →
      (remapGenotypeInnerStep input_data c lut inr mv ija j0 o' ak).dest (gtIndex j0 k0)
        = o'.dest (gtIndex j0 k0) ∧
      (remapGenotypeInnerStep input_data c lut inr mv ija j0 o' ak).counts (gtIndex j0 k0)
        = o'.counts (gtIndex j0 k0) := by
    intro ija o' ak hak hne
    have hm := List.mem_range'_1.mp hak
    exact remapGenotypeInnerStep_other input_data c lut inr mv ija j0 o' ak _
      (gtIndex_ne_of_ne_snd hj0 hm.1 hne)
  constructor
  · intro hres o
    obtain ⟨hl, hi⟩ := (resolveMergedAllele_none_iff lut c inr _).mp hres
    simp only [remapGenotypeOuterStep, if_pos (And.intro hl hi)]
    have hw := foldl_remap_write_once (remapGenotypeFillStep mv j0)
      (gtIndex j0 k0) k0 mv 0
      (fun o' => ⟨(remapGenotypeFillStep_self mv j0 o' k0).1,
        ((remapGenotypeFillStep_self mv j0 o' k0).2).trans (Nat.add_zero _).symm⟩)
      (List.range' j0 (num - j0)) hnd hk0mem hpresF o
    exact ⟨hw.1, hw.2.trans (Nat.add_zero _)⟩
  · intro a hres
    have hresJ := hres
    rw [resolveMergedAllele_some_iff] at hresJ
    obtain ⟨hcond, hval⟩ := hresJ
    constructor
    · intro hresk o
      simp only [remapGenotypeOuterStep, if_neg hcond]
      have hw := foldl_remap_write_once
        (remapGenotypeInnerStep input_data c lut inr mv
          (if lut.get_input_idx_for_merged c (j0 : Int) = lut_missing_value then inr
           else lut.get_input_idx_for_merged c (j0 : Int)) j0)
        (gtIndex j0 k0) k0 mv 0
        (fun o' => by
          have hs := (remapGenotypeInnerStep_self input_data c lut inr mv
            (if lut.get_input_idx_for_merged c (j0 : Int) = lut_missing_value then inr
             else lut.get_input_idx_for_merged c (j0 : Int)) j0 o' k0).1 hresk
          exact ⟨hs.1, hs.2.trans (Nat.add_zero _).symm⟩)
        (List.range' j0 (num - j0)) hnd hk0mem (hpresI _) o
      exact ⟨hw.1, hw.2.trans (Nat.add_zero _)⟩
    · intro bb hresk o
      simp only [remapGenotypeOuterStep, if_neg hcond]
      have hw := foldl_remap_write_once
        (remapGenotypeInnerStep input_data c lut inr mv
          (if lut.get_input_idx_for_merged c (j0 : Int) = lut_missing_value then inr
           else lut.get_input_idx_for_merged c (j0 : Int)) j0)
        (gtIndex j0 k0) k0
        (input_data.getD (bcf_alleles2gt
          (if lut.get_input_idx_for_merged c (j0 : Int) = lut_missing_value then inr
           else lut.get_input_idx_for_merged c (j0 : Int)) bb).toNat mv) 1
        (fun o' => (remapGenotypeInnerStep_self input_data c lut inr mv
          (if lut.get_input_idx_for_merged c (j0 : Int) = lut_missing_value then inr
           else lut.get_input_idx_for_merged c (j0 : Int)) j0 o' k0).2 bb hresk)
        (List.range' j0 (num - j0)) hnd hk0mem (hpresI _) o
      rw [← hval]
      exact hw

/-- Claim C1 (confirmed): genotype-indexed remap.  For every merged allele
pair (j, k) with j ≤ k < num_merged_alleles, writing to the pair's triangular
destination slot index(j, k) = j + k*(k+1)/2: if either side fails to resolve
to a local index (directly through the merged→local table, or through the
placeholder's local index when present), the missing value is written to that
pair's slot and processing continues with the remaining pairs (every other
pair is still processed as specified); if both sides resolve to a and b, the
local value at the triangular index of the resolved local pair is copied to
the slot and the slot's valid-data counter is incremented. -/
theorem remap_genotype_pairwise_spec {α : Type} (input_data : List α)
    (input_call_idx : Nat) (alleles_LUT : CombineAllelesLUT)
    (num_merged_alleles : Nat) (NON_REF_exists : Bool)
    (remapped_data : RemapOut α) (missing_value : α) :
    let inr : Int := if NON_REF_exists then
        alleles_LUT.get_input_idx_for_merged input_call_idx
          (if NON_REF_exists then (num_merged_alleles : Int) - 1 else lut_missing_value)
      else lut_missing_value
    let out := remap_data_based_on_genotype input_data input_call_idx alleles_LUT
        num_merged_alleles NON_REF_exists remapped_data missing_value
    (∀ j k : Nat, j ≤ k → gtIndex j k = j + k * (k + 1) / 2) ∧
    ∀ j k : Nat, j ≤ k → k < num_merged_alleles →
      ((resolveMergedAllele alleles_LUT input_call_idx inr (j : Int) = none ∨
        resolveMergedAllele alleles_LUT input_call_idx inr (k : Int) = none) →
        out.dest (gtIndex j k) = missing_value ∧
        out.counts (gtIndex j k) = remapped_data.counts (gtIndex j k)) ∧
      (∀ a b : Int, resolveMergedAllele alleles_LUT input_call_idx inr (j : Int) = some a →
        resolveMergedAllele alleles_LUT input_call_idx inr (k : Int) = some b →
        out.dest (gtIndex j k) =
          input_data.getD (bcf_alleles2gt a b).toNat missing_value ∧
        out.counts (gtIndex j k) = remapped_data.counts (gtIndex j k) + 1) := by
  intro inr out
  have hout : out = (List.range num_merged_alleles).foldl
      (remapGenotypeOuterStep input_data input_call_idx alleles_LUT inr
        num_merged_alleles missing_value) remapped_data := rfl
  refine ⟨fun j k h => gtIndex_of_le h, ?_⟩
  intro j k hjk hk
  have hjmem : j ∈ List.range num_merged_alleles := List.mem_range.mpr (by omega)
  have hpres : ∀ (o : RemapOut α) (b : Nat), b ∈ List.range num_merged_alleles →
      b ≠ j →
      (remapGenotypeOuterStep input_data input_call_idx alleles_LUT inr
        num_merged_alleles missing_value o b).dest (gtIndex j k) = o.dest (gtIndex j k) ∧
      (remapGenotypeOuterStep input_data input_call_idx alleles_LUT inr
        num_merged_alleles missing_value o b).counts (gtIndex j k)
        = o.counts (gtIndex j k) := by
    intro o b _ hne
    exact remapGenotypeOuterStep_other input_data input_call_idx alleles_LUT inr
      num_merged_alleles missing_value o b j k hjk hne
  have hself := remapGenotypeOuterStep_self input_data input_call_idx alleles_LUT inr
    num_merged_alleles missing_value j k hjk hk
  constructor
  · intro hor
    by_cases hresj : resolveMergedAllele alleles_LUT input_call_idx inr (j : Int) = none
    · have hw := foldl_remap_write_once
        (remapGenotypeOuterStep input_data input_call_idx alleles_LUT inr
          num_merged_alleles missing_value)
        (gtIndex j k) j missing_value 0
        (fun o => by
          have hs := hself.1 hresj o
          exact ⟨hs.1, hs.2.trans (Nat.add_zero _).symm⟩)
        (List.range num_merged_alleles) (List.nodup_range _) hjmem hpres remapped_data
      rw [hout]
      exact ⟨hw.1, hw.2.trans (Nat.add_zero _)⟩
    · obtain ⟨a, hresa⟩ := Option.ne_none_iff_exists'.mp hresj
      have hresk : resolveMergedAllele alleles_LUT input_call_idx inr (k : Int) = none := by
        rcases hor with h | h
        · exact absurd h hresj
        · exact h
      have hw := foldl_remap_write_once
        (remapGenotypeOuterStep input_data input_call_idx alleles_LUT inr
          num_merged_alleles missing_value)
        (gtIndex j k) j missing_value 0
        (fun o => by
          have hs := ((hself.2 a hresa).1 hresk o)
          exact ⟨hs.1, hs.2.trans (Nat.add_zero _).symm⟩)
        (List.range num_merged_alleles) (List.nodup_range _) hjmem hpres remapped_data
      rw [hout]
      exact ⟨hw.1, hw.2.trans (Nat.add_zero _)⟩
  · intro a b hresj hresk
    have hw := foldl_remap_write_once
      (remapGenotypeOuterStep input_data input_call_idx alleles_LUT inr
        num_merged_alleles missing_value)
      (gtIndex j k) j
      (input_data.getD (bcf_alleles2gt a b).toNat missing_value) 1
      (fun o => (hself.2 a hresj).2 b hresk o)
      (List.range num_merged_alleles) (List.nodup_range _) hjmem hpres remapped_data
    rw [hout]
    exact hw

/-- Witness for remap_genotype_pairwise_spec: with table lutB, two merged
alleles and genotype data [5, 6, 7], the merged pair (0, 1) resolves locally
to (0, 1) and slot 1 receives 6 with its counter bumped to 1. -/
theorem remap_genotype_pairwise_spec_witness :
    (remap_data_based_on_genotype [5, 6, 7] 0 lutB 2 false
      ⟨fun _ => 0, fun _ => 0⟩ ((-99 : Int))).dest (gtIndex 0 1) = 6 ∧
    (remap_data_based_on_genotype [5, 6, 7] 0 lutB 2 false
      ⟨fun _ => 0, fun _ => 0⟩ ((-99 : Int))).counts (gtIndex 0 1) = 1 := by
  have h := remap_genotype_pairwise_spec [5, 6, 7] 0 lutB 2 false
    ⟨fun _ => 0, fun _ => 0⟩ (-99 : Int)
  have h2 := (h.2 0 1 (by decide) (by decide)).2 0 1 (by decide) (by decide)
  exact ⟨h2.1.trans (by decide), h2.2.trans (by decide)⟩

theorem processOneAllele_seen_mono (mr : Str) (c rl : Nat) (st : MergeAltState)
    (i : Nat) (a : Str) (s : Str) (m : Int) (h : st.seen_alleles s = some m) :
    (processOneAllele mr c rl st i a).seen_alleles s = some m := by
  by_cases hn : IS_NON_REF_ALLELE a
  · simp only [processOneAllele, if_pos hn]
    exact h
  · cases hseen : st.seen_alleles (padAllele mr rl a) with
    | some m' =>
      simp only [processOneAllele, if_neg hn, hseen]
      exact h
    | none =>
      simp only [processOneAllele, if_neg hn, hseen]
      by_cases he : s = padAllele mr rl a
      · rw [he, hseen] at h
        cases h
      · rw [if_neg he]
        exact h

theorem processOneAllele_merged_append (mr : Str) (c rl : Nat) (st : MergeAltState)
    (i : Nat) (a : Str) :
    ∃ t, (processOneAllele mr c rl st i a).merged_alt_alleles
      = st.merged_alt_alleles ++ t := by
  by_cases hn : IS_NON_REF_ALLELE a
  · exact ⟨[], by simp only [processOneAllele, if_pos hn, List.append_nil]⟩
  · cases hseen : st.seen_alleles (padAllele mr rl a) with
    | some m' =>
      exact ⟨[], by simp only [processOneAllele, if_neg hn, hseen, List.append_nil]⟩
    | none =>
      exact ⟨[padAllele mr rl a], by simp only [processOneAllele, if_neg hn, hseen]⟩

theorem processOneAllele_lut_other (mr : Str) (c rl : Nat) (st : MergeAltState)
    (i : Nat) (a : Str) (c' : Nat) (x : Int) (hc : c' ≠ c) :
    (processOneAllele mr c rl st i a).alleles_LUT.inputToMerged c' x
      = st.alleles_LUT.inputToMerged c' x := by
  by_cases hn : IS_NON_REF_ALLELE a
  · simp only [processOneAllele, if_pos hn]
  · cases hseen : st.seen_alleles (padAllele mr rl a) with
    | some m' =>
      simp only [processOneAllele, if_neg hn, hseen,
        CombineAllelesLUT.add_input_merged_idx_pair]
      rw [if_neg (fun hcc => hc hcc.1)]
    | none =>
      simp only [processOneAllele, if_neg hn, hseen,
        CombineAllelesLUT.add_input_merged_idx_pair, CombineAllelesLUT.resize_luts_if_needed]
      rw [if_neg (fun hcc => hc hcc.1)]

theorem processOneAllele_lut_ne (mr : Str) (c rl : Nat) (st : MergeAltState)
    (i : Nat) (a : Str) (x : Int) (hx : x ≠ (i : Int)) :
    (processOneAllele mr c rl st i a).alleles_LUT.inputToMerged c x
      = st.alleles_LUT.inputToMerged c x := by
  by_cases hn : IS_NON_REF_ALLELE a
  · simp only [processOneAllele, if_pos hn]
  · cases hseen : st.seen_alleles (padAllele mr rl a) with
    | some m' =>
      simp only [processOneAllele, if_neg hn, hseen,
        CombineAllelesLUT.add_input_merged_idx_pair]
      rw [if_neg (fun hcc => hx hcc.2)]
    | none =>
      simp only [processOneAllele, if_neg hn, hseen,
        CombineAllelesLUT.add_input_merged_idx_pair, CombineAllelesLUT.resize_luts_if_needed]
      rw [if_neg (fun hcc => hx hcc.2)]

theorem processOneAllele_inr_other (mr : Str) (c rl : Nat) (st : MergeAltState)
    (i : Nat) (a : Str) (c' : Nat) (hc : c' ≠ c) :
    (processOneAllele mr c rl st i a).input_non_reference_allele_idx c'
      = st.input_non_reference_allele_idx c' := by
  by_cases hn : IS_NON_REF_ALLELE a
  · simp only [processOneAllele, if_pos hn]
    rw [if_neg hc]
  · cases hseen : st.seen_alleles (padAllele mr rl a) with
    | some m' => simp only [processOneAllele, if_neg hn, hseen]
    | none => simp only [processOneAllele, if_neg hn, hseen]

theorem processOneAllele_SeenInv (mr : Str) (c rl : Nat) (st : MergeAltState)
    (i : Nat) (a : Str) (hinv : SeenInv st) :
    SeenInv (processOneAllele mr c rl st i a) := by
  obtain ⟨h1, h2, h3, h4⟩ := hinv
  by_cases hn : IS_NON_REF_ALLELE a
  · simp only [SeenInv, processOneAllele, if_pos hn]
    exact ⟨h1, h2, h3, h4⟩
  · cases hseen : st.seen_alleles (padAllele mr rl a) with
    | some m' =>
      simp only [SeenInv, processOneAllele, if_neg hn, hseen]
      exact ⟨h1, h2, h3, h4⟩
    | none =>
      have hpad_ne : padAllele mr rl a ≠ g_non_reference_allele := by
        intro he
        rw [he, h1] at hseen
        cases hseen
      have hpad_notmem : ∀ p, st.merged_alt_alleles.get? p ≠ some (padAllele mr rl a) := by
        intro p hp
        rw [h3 p _ hp] at hseen
        cases hseen
      simp only [SeenInv, processOneAllele, if_neg hn, hseen]
      refine ⟨?_, ?_, ?_, ?_⟩
      · rw [if_neg (fun he => hpad_ne he.symm)]
        exact h1
      · simp only [List.length_append, List.length_singleton]
        omega
      · intro p s hp
        rcases Nat.lt_trichotomy p st.merged_alt_alleles.length with hlt | heq | hgt
        · rw [List.get?_append hlt] at hp
          have hs_ne : s ≠ padAllele mr rl a := by
            intro he
            exact hpad_notmem p (he ▸ hp)
          rw [if_neg hs_ne]
          exact h3 p s hp
        · subst heq
          rw [List.get?_concat_length] at hp
          have hs : s = padAllele mr rl a := (Option.some.inj hp).symm
          subst hs
          rw [if_pos rfl, h2]
          congr 1
        · exfalso
          have hnone : (st.merged_alt_alleles ++ [padAllele mr rl a]).get? p = none := by
            refine List.get?_eq_none.mpr ?_
            simp only [List.length_append, List.length_singleton]
            omega
          rw [hnone] at hp
          cases hp
      · intro s m hs hs_ne
        by_cases he : s = padAllele mr rl a
        · subst he
          rw [if_pos rfl] at hs
          refine ⟨st.merged_alt_alleles.length, ?_, ?_⟩
          · exact List.get?_concat_length _ _
          · rw [← Option.some.inj hs, h2]
            omega
        · rw [if_neg he] at hs
          obtain ⟨p, hp, hm⟩ := h4 s m hs hs_ne
          have hplt : p < st.merged_alt_alleles.length := by
            by_contra hge
            rw [List.get?_eq_none.mpr (by omega)] at hp
            cases hp
          exact ⟨p, by rw [List.get?_append hplt]; exact hp, hm⟩

theorem processOneAllele_inr_nonref (mr : Str) (c rl : Nat) (st : MergeAltState)
    (i : Nat) (a : Str) (hn : ¬ IS_NON_REF_ALLELE a) :
    (processOneAllele mr c rl st i a).input_non_reference_allele_idx
      = st.input_non_reference_allele_idx := by
  cases hseen : st.seen_alleles (padAllele mr rl a) with
  | some m' => simp only [processOneAllele, if_neg hn, hseen]
  | none => simp only [processOneAllele, if_neg hn, hseen]

theorem processOneAllele_merged_get?_mono (mr : Str) (c rl : Nat) (st : MergeAltState)
    (i : Nat) (a : Str) (p : Nat) (s : Str)
    (h : st.merged_alt_alleles.get? p = some s) :
    (processOneAllele mr c rl st i a).merged_alt_alleles.get? p = some s := by
  obtain ⟨t, ht⟩ := processOneAllele_merged_append mr c rl st i a
  rw [ht]
  have hlt : p < st.merged_alt_alleles.length := by
    by_contra hge
    rw [List.get?_eq_none.mpr (by omega)] at h
    cases h
  rw [List.get?_append hlt]
  exact h

theorem processOneAllele_nonref_exists_bool (mr : Str) (c rl : Nat) (st : MergeAltState)
    (i : Nat) (a : Str) :
    (processOneAllele mr c rl st i a).NON_REF_exists
      = (st.NON_REF_exists || decide (IS_NON_REF_ALLELE a)) := by
  by_cases hn : IS_NON_REF_ALLELE a
  · simp [processOneAllele, hn]
  · cases hseen : st.seen_alleles (padAllele mr rl a) with
    | some m' => simp [processOneAllele, hn, hseen]
    | none => simp [processOneAllele, hn, hseen]

theorem processAlleles_seen_mono (mr : Str) (c rl : Nat) :
    ∀ (l : List Str) (i : Nat) (st : MergeAltState) (s : Str) (m : Int),
    st.seen_alleles s = some m →
    (processAlleles mr c rl i l st).seen_alleles s = some m := by
  intro l
  induction l with
  | nil => exact fun i st s m h => h
  | cons a rest ih =>
    intro i st s m h
    simp only [processAlleles]
    exact ih (i + 1) _ s m (processOneAllele_seen_mono mr c rl st i a s m h)

theorem processAlleles_merged_mono (mr : Str) (c rl : Nat) :
    ∀ (l : List Str) (i : Nat) (st : MergeAltState) (p : Nat) (s : Str),
    st.merged_alt_alleles.get? p = some s →
    (processAlleles mr c rl i l st).merged_alt_alleles.get? p = some s := by
  intro l
  induction l with
  | nil => exact fun i st p s h => h
  | cons a rest ih =>
    intro i st p s h
    simp only [processAlleles]
    exact ih (i + 1) _ p s (processOneAllele_merged_get?_mono mr c rl st i a p s h)

theorem processAlleles_lut_other (mr : Str) (c rl : Nat) :
    ∀ (l : List Str) (i : Nat) (st : MergeAltState) (c' : Nat) (x : Int), c' ≠ c →
    (processAlleles mr c rl i l st).alleles_LUT.inputToMerged c' x
      = st.alleles_LUT.inputToMerged c' x := by
  intro l
  induction l with
  | nil => exact fun i st c' x _ => rfl
  | cons a rest ih =>
    intro i st c' x hc
    simp only [processAlleles]
    rw [ih (i + 1) _ c' x hc]
    exact processOneAllele_lut_other mr c rl st i a c' x hc

theorem processAlleles_lut_lt (mr : Str) (c rl : Nat) :
    ∀ (l : List Str) (i : Nat) (st : MergeAltState) (x : Int), x < (i : Int) →
    (processAlleles mr c rl i l st).alleles_LUT.inputToMerged c x
      = st.alleles_LUT.inputToMerged c x := by
  intro l
  induction l with
  | nil => exact fun i st x _ => rfl
  | cons a rest ih =>
    intro i st x hx
    simp only [processAlleles]
    rw [ih (i + 1) _ x (by push_cast; omega)]
    exact processOneAllele_lut_ne mr c rl st i a x (by omega)

theorem processAlleles_inr_other (mr : Str) (c rl : Nat) :
    ∀ (l : List Str) (i : Nat) (st : MergeAltState) (c' : Nat), c' ≠ c →
    (processAlleles mr c rl i l st).input_non_reference_allele_idx c'
      = st.input_non_reference_allele_idx c' := by
  intro l
  induction l with
  | nil => exact fun i st c' _ => rfl
  | cons a rest ih =>
    intro i st c' hc
    simp only [processAlleles]
    rw [ih (i + 1) _ c' hc]
    exact processOneAllele_inr_other mr c rl st i a c' hc

theorem processAlleles_SeenInv (mr : Str) (c rl : Nat) :
    ∀ (l : List Str) (i : Nat) (st : MergeAltState), SeenInv st →
    SeenInv (processAlleles mr c rl i l st) := by
  intro l
  induction l with
  | nil => exact fun i st h => h
  | cons a rest ih =>
    intro i st h
    simp only [processAlleles]
    exact ih (i + 1) _ (processOneAllele_SeenInv mr c rl st i a h)

theorem processAlleles_no_nonref_inr (mr : Str) (c rl : Nat) :
    ∀ (l : List Str) (i : Nat) (st : MergeAltState),
    (∀ a ∈ l, ¬ IS_NON_REF_ALLELE a) →
    (processAlleles mr c rl i l st).input_non_reference_allele_idx
      = st.input_non_reference_allele_idx := by
  intro l
  induction l with
  | nil => exact fun i st _ => rfl
  | cons a rest ih =>
    intro i st hno
    simp only [processAlleles]
    rw [ih (i + 1) _ (fun a' ha' => hno a' (by simp [ha']))]
    exact processOneAllele_inr_nonref mr c rl st i a (hno a (by simp))

theorem processAlleles_nonref_exists_bool (mr : Str) (c rl : Nat) :
    ∀ (l : List Str) (i : Nat) (st : MergeAltState),
    (processAlleles mr c rl i l st).NON_REF_exists
      = (st.NON_REF_exists || l.any (fun a => decide (IS_NON_REF_ALLELE a))) := by
  intro l
  induction l with
  | nil => intro i st; simp [processAlleles]
  | cons a rest ih =>
    intro i st
    simp only [processAlleles]
    rw [ih (i + 1) _, processOneAllele_nonref_exists_bool]
    simp [Bool.or_assoc]

theorem processAlleles_action (mr : Str) (c rl : Nat) :
    ∀ (l : List Str) (i : Nat) (st : MergeAltState), SeenInv st →
    ∀ (p : Nat) (a : Str), l.get? p = some a → ¬ IS_NON_REF_ALLELE a →
    ∃ m : Int,
      (processAlleles mr c rl i l st).seen_alleles (padAllele mr rl a) = some m ∧
      (processAlleles mr c rl i l st).alleles_LUT.inputToMerged c ((i + p : Nat) : Int)
        = m := by
  intro l
  induction l with
  | nil =>
    intro i st _ p a hp
    cases hp
  | cons a0 rest ih =>
    intro i st hinv p a hp hn
    cases p with
    | zero =>
      rw [List.get?_cons_zero] at hp
      have ha : a0 = a := Option.some.inj hp
      subst ha
      simp only [processAlleles]
      cases hseen : st.seen_alleles (padAllele mr rl a0) with
      | some m0 =>
        have hstep_seen :
            (processOneAllele mr c rl st i a0).seen_alleles (padAllele mr rl a0)
              = some m0 :=
          processOneAllele_seen_mono mr c rl st i a0 _ m0 hseen
        have hstep_lut :
            (processOneAllele mr c rl st i a0).alleles_LUT.inputToMerged c (i : Int)
              = m0 := by
          simp only [processOneAllele, if_neg hn, hseen,
            CombineAllelesLUT.add_input_merged_idx_pair]
          simp
        refine ⟨m0, processAlleles_seen_mono mr c rl rest (i + 1) _ _ m0 hstep_seen, ?_⟩
        simp only [Nat.add_zero]
        rw [processAlleles_lut_lt mr c rl rest (i + 1) _ (i : Int) (by push_cast; omega)]
        exact hstep_lut
      | none =>
        have hstep_seen :
            (processOneAllele mr c rl st i a0).seen_alleles (padAllele mr rl a0)
              = some (st.merged_allele_idx : Int) := by
          simp only [processOneAllele, if_neg hn, hseen]
          simp
        have hstep_lut :
            (processOneAllele mr c rl st i a0).alleles_LUT.inputToMerged c (i : Int)
              = (st.merged_allele_idx : Int) := by
          simp only [processOneAllele, if_neg hn, hseen,
            CombineAllelesLUT.add_input_merged_idx_pair,
            CombineAllelesLUT.resize_luts_if_needed]
          simp
        refine ⟨(st.merged_allele_idx : Int),
          processAlleles_seen_mono mr c rl rest (i + 1) _ _ _ hstep_seen, ?_⟩
        simp only [Nat.add_zero]
        rw [processAlleles_lut_lt mr c rl rest (i + 1) _ (i : Int) (by push_cast; omega)]
        exact hstep_lut
    | succ q =>
      rw [List.get?_cons_succ] at hp
      simp only [processAlleles]
      have hinv' := processOneAllele_SeenInv mr c rl st i a0 hinv
      obtain ⟨m, hm1, hm2⟩ := ih (i + 1) _ hinv' q a hp hn
      refine ⟨m, hm1, ?_⟩
      have hidx : i + (q + 1) = (i + 1) + q := by omega
      rw [hidx]
      exact hm2

theorem processAlleles_inr_last (mr : Str) (c rl : Nat) :
    ∀ (l : List Str) (i : Nat) (st : MergeAltState) (p : Nat),
    l.get? p = some g_non_reference_allele →
    (∀ q a', l.get? q = some a' → p < q → ¬ IS_NON_REF_ALLELE a') →
    (processAlleles mr c rl i l st).input_non_reference_allele_idx c
      = ((i + p : Nat) : Int) := by
  intro l
  induction l with
  | nil =>
    intro i st p hp
    cases hp
  | cons a0 rest ih =>
    intro i st p hp hafter
    cases p with
    | zero =>
      rw [List.get?_cons_zero] at hp
      have ha : a0 = g_non_reference_allele := Option.some.inj hp
      have hrest : ∀ a' ∈ rest, ¬ IS_NON_REF_ALLELE a' := by
        intro a' ha'
        obtain ⟨q, hq⟩ := List.get?_of_mem ha'
        exact hafter (q + 1) a' (by rw [List.get?_cons_succ]; exact hq) (Nat.succ_pos q)
      simp only [processAlleles]
      rw [show (processAlleles mr c rl (i + 1) rest
            (processOneAllele mr c rl st i a0)).input_non_reference_allele_idx
          = (processOneAllele mr c rl st i a0).input_non_reference_allele_idx
        from processAlleles_no_nonref_inr mr c rl rest (i + 1) _ hrest]
      simp only [processOneAllele, if_pos (show IS_NON_REF_ALLELE a0 from ha)]
      simp
    | succ q =>
      rw [List.get?_cons_succ] at hp
      simp only [processAlleles]
      have hres := ih (i + 1) (processOneAllele mr c rl st i a0) q hp
        (fun q' a' hq' hlt => hafter (q' + 1) a'
          (by rw [List.get?_cons_succ]; exact hq') (by omega))
      rw [hres]
      congr 1
      omega

theorem processAlleles_inr_cases (mr : Str) (c rl : Nat) :
    ∀ (l : List Str) (i : Nat) (st : MergeAltState),
    (processAlleles mr c rl i l st).input_non_reference_allele_idx c
      = st.input_non_reference_allele_idx c ∨
    ∃ p, l.get? p = some g_non_reference_allele ∧
      (processAlleles mr c rl i l st).input_non_reference_allele_idx c
        = ((i + p : Nat) : Int) := by
  intro l
  induction l with
  | nil => exact fun i st => Or.inl rfl
  | cons a0 rest ih =>
    intro i st
    simp only [processAlleles]
    rcases ih (i + 1) (processOneAllele mr c rl st i a0) with h | ⟨p, hp, hv⟩
    · by_cases hn : IS_NON_REF_ALLELE a0
      · right
        refine ⟨0, by rw [List.get?_cons_zero, hn], ?_⟩
        rw [h]
        simp only [processOneAllele, if_pos hn]
        simp
      · left
        rw [h]
        rw [processOneAllele_inr_nonref mr c rl st i a0 hn]
    · right
      refine ⟨p + 1, by rw [List.get?_cons_succ]; exact hp, ?_⟩
      rw [hv]
      congr 1
      omega

theorem SeenInv_nonref_notmem {st : MergeAltState} (hinv : SeenInv st) :
    g_non_reference_allele ∉ st.merged_alt_alleles := by
  intro hmem
  obtain ⟨p, hp⟩ := List.get?_of_mem hmem
  have := hinv.2.2.1 p _ hp
  rw [hinv.1] at this
  have h2 := Option.some.inj this
  omega

theorem SeenInv_mem_of_seen {st : MergeAltState} (hinv : SeenInv st) (s : Str)
    (m : Int) (hs : st.seen_alleles s = some m) (hne : s ≠ g_non_reference_allele) :
    s ∈ st.merged_alt_alleles := by
  obtain ⟨p, hp, _⟩ := hinv.2.2.2 s m hs hne
  exact List.get?_mem hp

theorem SeenInv_seen_of_mem {st : MergeAltState} (hinv : SeenInv st) (s : Str)
    (hmem : s ∈ st.merged_alt_alleles) : ∃ m, st.seen_alleles s = some m := by
  obtain ⟨p, hp⟩ := List.get?_of_mem hmem
  exact ⟨_, hinv.2.2.1 p _ hp⟩

theorem SeenInv_nodup {st : MergeAltState} (hinv : SeenInv st) :
    st.merged_alt_alleles.Nodup := by
  rw [List.nodup_iff_injective_get]
  intro p q hpq
  have hp := hinv.2.2.1 p.1 _ (List.get?_eq_get p.2)
  have hq := hinv.2.2.1 q.1 _ (List.get?_eq_get q.2)
  rw [hpq] at hp
  rw [hp] at hq
  have := Option.some.inj hq
  have hnat : p.1 = q.1 := by omega
  exact Fin.ext hnat

theorem processAlleles_flat (mr : Str) (c rl : Nat) :
    ∀ (l : List Str) (i : Nat) (st : MergeAltState), SeenInv st →
    (∀ a ∈ l, ¬ IS_NON_REF_ALLELE a → padAllele mr rl a ≠ g_non_reference_allele) →
    (processAlleles mr c rl i l st).merged_alt_alleles
      = ((l.filter (fun a => decide (¬ IS_NON_REF_ALLELE a))).map (padAllele mr rl)).foldl
          dedupStep st.merged_alt_alleles := by
  intro l
  induction l with
  | nil => exact fun i st _ _ => rfl
  | cons a0 rest ih =>
    intro i st hinv hpad
    simp only [processAlleles]
    rw [ih (i + 1) _ (processOneAllele_SeenInv mr c rl st i a0 hinv)
      (fun a' ha' => hpad a' (by simp [ha']))]
    by_cases hn : IS_NON_REF_ALLELE a0
    · have hfilter : (a0 :: rest).filter (fun a => decide (¬ IS_NON_REF_ALLELE a))
          = rest.filter (fun a => decide (¬ IS_NON_REF_ALLELE a)) := by
        simp [List.filter_cons, hn]
      rw [hfilter]
      have hmerged : (processOneAllele mr c rl st i a0).merged_alt_alleles
          = st.merged_alt_alleles := by
        simp only [processOneAllele, if_pos hn]
      rw [hmerged]
    · have hfilter : (a0 :: rest).filter (fun a => decide (¬ IS_NON_REF_ALLELE a))
          = a0 :: rest.filter (fun a => decide (¬ IS_NON_REF_ALLELE a)) := by
        simp [List.filter_cons, hn]
      rw [hfilter, List.map_cons, List.foldl_cons]
      cases hseen : st.seen_alleles (padAllele mr rl a0) with
      | some m0 =>
        have hmem : padAllele mr rl a0 ∈ st.merged_alt_alleles :=
          SeenInv_mem_of_seen hinv _ m0 hseen (hpad a0 (by simp) hn)
        have hmerged : (processOneAllele mr c rl st i a0).merged_alt_alleles
            = st.merged_alt_alleles := by
          simp only [processOneAllele, if_neg hn, hseen]
        rw [hmerged, dedupStep, if_pos hmem]
      | none =>
        have hnotmem : padAllele mr rl a0 ∉ st.merged_alt_alleles := by
          intro hmem
          obtain ⟨m, hm⟩ := SeenInv_seen_of_mem hinv _ hmem
          rw [hm] at hseen
          cases hseen
        have hmerged : (processOneAllele mr c rl st i a0).merged_alt_alleles
            = st.merged_alt_alleles ++ [padAllele mr rl a0] := by
          simp only [processOneAllele, if_neg hn, hseen]
        rw [hmerged, dedupStep, if_neg hnotmem]

theorem processCall_SeenInv (mr : Str) (st : MergeAltState) (cv : Nat × VariantCall)
    (hinv : SeenInv st) : SeenInv (processCall mr st cv) :=
  processAlleles_SeenInv mr cv.1 cv.2.ref.length cv.2.alts 1 _ hinv

theorem processCall_seen_mono (mr : Str) (st : MergeAltState) (cv : Nat × VariantCall)
    (s : Str) (m : Int) (h : st.seen_alleles s = some m) :
    (processCall mr st cv).seen_alleles s = some m :=
  processAlleles_seen_mono mr cv.1 cv.2.ref.length cv.2.alts 1 _ s m h

theorem processCall_merged_mono (mr : Str) (st : MergeAltState) (cv : Nat × VariantCall)
    (p : Nat) (s : Str) (h : st.merged_alt_alleles.get? p = some s) :
    (processCall mr st cv).merged_alt_alleles.get? p = some s :=
  processAlleles_merged_mono mr cv.1 cv.2.ref.length cv.2.alts 1 _ p s h

theorem processCall_lut_other (mr : Str) (st : MergeAltState) (cv : Nat × VariantCall)
    (c' : Nat) (x : Int) (hc : c' ≠ cv.1) :
    (processCall mr st cv).alleles_LUT.inputToMerged c' x
      = st.alleles_LUT.inputToMerged c' x := by
  rw [processCall,
    processAlleles_lut_other mr cv.1 cv.2.ref.length cv.2.alts 1 _ c' x hc]
  simp only [CombineAllelesLUT.add_input_merged_idx_pair]
  rw [if_neg (fun hcc => hc hcc.1)]

theorem processCall_inr_other (mr : Str) (st : MergeAltState) (cv : Nat × VariantCall)
    (c' : Nat) (hc : c' ≠ cv.1) :
    (processCall mr st cv).input_non_reference_allele_idx c'
      = st.input_non_reference_allele_idx c' :=
  processAlleles_inr_other mr cv.1 cv.2.ref.length cv.2.alts 1 _ c' hc

theorem processCall_nonref_bool (mr : Str) (st : MergeAltState) (cv : Nat × VariantCall) :
    (processCall mr st cv).NON_REF_exists
      = (st.NON_REF_exists || cv.2.alts.any (fun a => decide (IS_NON_REF_ALLELE a))) :=
  processAlleles_nonref_exists_bool mr cv.1 cv.2.ref.length cv.2.alts 1 _

theorem foldCalls_SeenInv (mr : Str) :
    ∀ (l : Variant) (st : MergeAltState), SeenInv st →
    SeenInv (l.foldl (processCall mr) st) := by
  intro l
  induction l with
  | nil => exact fun st h => h
  | cons cv rest ih =>
    intro st h
    simp only [List.foldl_cons]
    exact ih _ (processCall_SeenInv mr st cv h)

theorem foldCalls_seen_mono (mr : Str) :
    ∀ (l : Variant) (st : MergeAltState) (s : Str) (m : Int),
    st.seen_alleles s = some m →
    (l.foldl (processCall mr) st).seen_alleles s = some m := by
  intro l
  induction l with
  | nil => exact fun st s m h => h
  | cons cv rest ih =>
    intro st s m h
    simp only [List.foldl_cons]
    exact ih _ s m (processCall_seen_mono mr st cv s m h)

theorem foldCalls_merged_mono (mr : Str) :
    ∀ (l : Variant) (st : MergeAltState) (p : Nat) (s : Str),
    st.merged_alt_alleles.get? p = some s →
    (l.foldl (processCall mr) st).merged_alt_alleles.get? p = some s := by
  intro l
  induction l with
  | nil => exact fun st p s h => h
  | cons cv rest ih =>
    intro st p s h
    simp only [List.foldl_cons]
    exact ih _ p s (processCall_merged_mono mr st cv p s h)

theorem foldCalls_lut_other (mr : Str) :
    ∀ (l : Variant) (st : MergeAltState) (c' : Nat) (x : Int),
    c' ∉ l.map Prod.fst →
    (l.foldl (processCall mr) st).alleles_LUT.inputToMerged c' x
      = st.alleles_LUT.inputToMerged c' x := by
  intro l
  induction l with
  | nil => exact fun st c' x _ => rfl
  | cons cv rest ih =>
    intro st c' x hc
    simp only [List.map_cons, List.mem_cons, not_or] at hc
    simp only [List.foldl_cons]
    rw [ih _ c' x hc.2]
    exact processCall_lut_other mr st cv c' x hc.1

theorem foldCalls_inr_other (mr : Str) :
    ∀ (l : Variant) (st : MergeAltState) (c' : Nat),
    c' ∉ l.map Prod.fst →
    (l.foldl (processCall mr) st).input_non_reference_allele_idx c'
      = st.input_non_reference_allele_idx c' := by
  intro l
  induction l with
  | nil => exact fun st c' _ => rfl
  | cons cv rest ih =>
    intro st c' hc
    simp only [List.map_cons, List.mem_cons, not_or] at hc
    simp only [List.foldl_cons]
    rw [ih _ c' hc.2]
    exact processCall_inr_other mr st cv c' hc.1

theorem foldCalls_nonref_bool (mr : Str) :
    ∀ (l : Variant) (st : MergeAltState),
    (l.foldl (processCall mr) st).NON_REF_exists
      = (st.NON_REF_exists ||
          l.any (fun cv => cv.2.alts.any (fun a => decide (IS_NON_REF_ALLELE a)))) := by
  intro l
  induction l with
  | nil => intro st; simp
  | cons cv rest ih =>
    intro st
    simp only [List.foldl_cons]
    rw [ih, processCall_nonref_bool]
    simp [Bool.or_assoc]

theorem foldCalls_flat (mr : Str) :
    ∀ (l : Variant) (st : MergeAltState), SeenInv st →
    (∀ cv ∈ l, ∀ a ∈ cv.2.alts, ¬ IS_NON_REF_ALLELE a →
      padAllele mr cv.2.ref.length a ≠ g_non_reference_allele) →
    (l.foldl (processCall mr) st).merged_alt_alleles
      = (flattenPaddedAlts mr l).foldl dedupStep st.merged_alt_alleles := by
  intro l
  induction l with
  | nil => exact fun st _ _ => rfl
  | cons cv rest ih =>
    intro st hinv hpad
    simp only [List.foldl_cons]
    rw [ih _ (processCall_SeenInv mr st cv hinv)
      (fun cv' hcv' => hpad cv' (by simp [hcv']))]
    have hcall : (processCall mr st cv).merged_alt_alleles
        = ((cv.2.alts.filter (fun a => decide (¬ IS_NON_REF_ALLELE a))).map
            (padAllele mr cv.2.ref.length)).foldl dedupStep st.merged_alt_alleles :=
      processAlleles_flat mr cv.1 cv.2.ref.length cv.2.alts 1 _ hinv
        (hpad cv (by simp))
    rw [hcall]
    rw [show flattenPaddedAlts mr (cv :: rest)
        = ((cv.2.alts.filter (fun a => decide (¬ IS_NON_REF_ALLELE a))).map
            (padAllele mr cv.2.ref.length)) ++ flattenPaddedAlts mr rest from by
      simp [flattenPaddedAlts]]
    rw [List.foldl_append]

theorem initMergeAltState_SeenInv (lut0 : CombineAllelesLUT) :
    SeenInv (initMergeAltState lut0) := by
  refine ⟨?_, rfl, ?_, ?_⟩
  · simp [initMergeAltState]
  · intro p s hp
    cases hp
  · intro s m hs hne
    simp only [initMergeAltState] at hs
    rw [if_neg hne] at hs
    cases hs

theorem main_split {mr : Str} {variant : Variant} {lut0 : CombineAllelesLUT}
    {cv : Nat × VariantCall} (hmem : cv ∈ variant) :
    ∃ l1 l2, variant = l1 ++ cv :: l2 ∧
      variant.foldl (processCall mr) (initMergeAltState lut0)
        = l2.foldl (processCall mr)
            (processCall mr (l1.foldl (processCall mr) (initMergeAltState lut0)) cv) := by
  obtain ⟨l1, l2, hsplit⟩ := List.append_of_mem hmem
  exact ⟨l1, l2, hsplit, by rw [hsplit, List.foldl_append, List.foldl_cons]⟩

theorem nodup_split_fst {variant l1 l2 : Variant} {cv : Nat × VariantCall}
    (hnd : (variant.map Prod.fst).Nodup) (hsplit : variant = l1 ++ cv :: l2) :
    cv.1 ∉ l1.map Prod.fst ∧ cv.1 ∉ l2.map Prod.fst := by
  subst hsplit
  rw [List.map_append, List.map_cons, List.nodup_append] at hnd
  obtain ⟨h1, h2, hdisj⟩ := hnd
  refine ⟨fun hmem => ?_, (List.nodup_cons.mp h2).1⟩
  exact hdisj hmem (by simp)

theorem main_action (mr : Str) (variant : Variant) (lut0 : CombineAllelesLUT)
    (hnd : (variant.map Prod.fst).Nodup) (cv : Nat × VariantCall) (hmem : cv ∈ variant)
    (p : Nat) (a : Str) (hp : cv.2.alts.get? p = some a) (hn : ¬ IS_NON_REF_ALLELE a) :
    ∃ m : Int,
      (variant.foldl (processCall mr) (initMergeAltState lut0)).seen_alleles
        (padAllele mr cv.2.ref.length a) = some m ∧
      (variant.foldl (processCall mr) (initMergeAltState lut0)).alleles_LUT.inputToMerged
        cv.1 ((1 + p : Nat) : Int) = m := by
  obtain ⟨l1, l2, hsplit, hfold⟩ := @main_split mr variant lut0 cv hmem
  have hnods := nodup_split_fst hnd hsplit
  have hinv1 : SeenInv (l1.foldl (processCall mr) (initMergeAltState lut0)) :=
    foldCalls_SeenInv mr l1 _ (initMergeAltState_SeenInv lut0)
  obtain ⟨m, hm1, hm2⟩ := processAlleles_action mr cv.1 cv.2.ref.length cv.2.alts 1
    { l1.foldl (processCall mr) (initMergeAltState lut0) with
      alleles_LUT := (l1.foldl (processCall mr)
        (initMergeAltState lut0)).alleles_LUT.add_input_merged_idx_pair cv.1 0 0 }
    hinv1 p a hp hn
  refine ⟨m, ?_, ?_⟩
  · rw [hfold]
    exact foldCalls_seen_mono mr l2 _ _ m hm1
  · rw [hfold]
    rw [foldCalls_lut_other mr l2 _ cv.1 _ hnods.2]
    exact hm2

theorem main_inr_last (mr : Str) (variant : Variant) (lut0 : CombineAllelesLUT)
    (hnd : (variant.map Prod.fst).Nodup) (cv : Nat × VariantCall) (hmem : cv ∈ variant)
    (p : Nat) (hp : cv.2.alts.get? p = some g_non_reference_allele)
    (hafter : ∀ q a', cv.2.alts.get? q = some a' → p < q → ¬ IS_NON_REF_ALLELE a') :
    (variant.foldl (processCall mr)
        (initMergeAltState lut0)).input_non_reference_allele_idx cv.1
      = ((1 + p : Nat) : Int) := by
  obtain ⟨l1, l2, hsplit, hfold⟩ := @main_split mr variant lut0 cv hmem
  have hnods := nodup_split_fst hnd hsplit
  rw [hfold]
  rw [foldCalls_inr_other mr l2 _ cv.1 hnods.2]
  exact processAlleles_inr_last mr cv.1 cv.2.ref.length cv.2.alts 1 _ p hp hafter

theorem main_inr_cases (mr : Str) (variant : Variant) (lut0 : CombineAllelesLUT)
    (hnd : (variant.map Prod.fst).Nodup) (cv : Nat × VariantCall) (hmem : cv ∈ variant) :
    (variant.foldl (processCall mr)
        (initMergeAltState lut0)).input_non_reference_allele_idx cv.1 = -1 ∨
    ∃ p, cv.2.alts.get? p = some g_non_reference_allele ∧
      (variant.foldl (processCall mr)
          (initMergeAltState lut0)).input_non_reference_allele_idx cv.1
        = ((1 + p : Nat) : Int) := by
  obtain ⟨l1, l2, hsplit, hfold⟩ := @main_split mr variant lut0 cv hmem
  have hnods := nodup_split_fst hnd hsplit
  rw [hfold]
  rw [foldCalls_inr_other mr l2 _ cv.1 hnods.2]
  rcases processAlleles_inr_cases mr cv.1 cv.2.ref.length cv.2.alts 1
      { l1.foldl (processCall mr) (initMergeAltState lut0) with
        alleles_LUT := (l1.foldl (processCall mr)
          (initMergeAltState lut0)).alleles_LUT.add_input_merged_idx_pair cv.1 0 0 }
    with h | ⟨p, hp, hv⟩
  · left
    rw [processCall]
    rw [h]
    show (l1.foldl (processCall mr)
      (initMergeAltState lut0)).input_non_reference_allele_idx cv.1 = -1
    rw [foldCalls_inr_other mr l1 _ cv.1 hnods.1]
    rfl
  · right
    exact ⟨p, hp, hv⟩

theorem main_nonref_bool (mr : Str) (variant : Variant) (lut0 : CombineAllelesLUT) :
    (variant.foldl (processCall mr) (initMergeAltState lut0)).NON_REF_exists
      = variant.any (fun cv => cv.2.alts.any (fun a => decide (IS_NON_REF_ALLELE a))) := by
  rw [foldCalls_nonref_bool]
  rfl

theorem main_flat (mr : Str) (variant : Variant) (lut0 : CombineAllelesLUT)
    (hpad : ∀ cv ∈ variant, ∀ a ∈ cv.2.alts, ¬ IS_NON_REF_ALLELE a →
      padAllele mr cv.2.ref.length a ≠ g_non_reference_allele) :
    (variant.foldl (processCall mr) (initMergeAltState lut0)).merged_alt_alleles
      = dedupFirst (flattenPaddedAlts mr variant) := by
  rw [foldCalls_flat mr variant _ (initMergeAltState_SeenInv lut0) hpad]
  rfl

theorem merge_alt_of_nonref (variant : Variant) (mr : Str) (lut0 : CombineAllelesLUT)
    (h : (variant.foldl (processCall mr) (initMergeAltState lut0)).NON_REF_exists
      = true) :
    merge_alt_alleles variant mr lut0 =
      (let st := variant.foldl (processCall mr) (initMergeAltState lut0)
       let merged := st.merged_alt_alleles ++ [g_non_reference_allele]
       let non_reference_allele_idx : Nat := merged.length
       { st with
         merged_alt_alleles := merged,
         alleles_LUT := variant.foldl (fun l cv =>
           if 0 ≤ st.input_non_reference_allele_idx cv.1 then
             (l.resize_luts_if_needed
                 (non_reference_allele_idx + 1)).add_input_merged_idx_pair
               cv.1 (st.input_non_reference_allele_idx cv.1)
               (non_reference_allele_idx : Int)
           else l) st.alleles_LUT }) := by
  simp only [merge_alt_alleles]
  rw [if_pos h]

theorem merge_alt_of_not_nonref (variant : Variant) (mr : Str)
    (lut0 : CombineAllelesLUT)
    (h : ¬ (variant.foldl (processCall mr) (initMergeAltState lut0)).NON_REF_exists
      = true) :
    merge_alt_alleles variant mr lut0
      = variant.foldl (processCall mr) (initMergeAltState lut0) := by
  simp only [merge_alt_alleles]
  rw [if_neg h]

theorem finalLutFold_other (f : Nat → Int) (n : Nat) :
    ∀ (l : Variant) (lut : CombineAllelesLUT) (c : Nat) (x : Int),
    (∀ cv ∈ l, cv.1 ≠ c ∨ f cv.1 ≠ x) →
    (l.foldl (fun lu cv => if 0 ≤ f cv.1 then
        (lu.resize_luts_if_needed (n + 1)).add_input_merged_idx_pair
          cv.1 (f cv.1) (n : Int)
      else lu) lut).inputToMerged c x = lut.inputToMerged c x := by
  intro l
  induction l with
  | nil => exact fun lut c x _ => rfl
  | cons cv rest ih =>
    intro lut c x hne
    simp only [List.foldl_cons]
    rw [ih _ c x (fun cv' h => hne cv' (by simp [h]))]
    by_cases h0 : 0 ≤ f cv.1
    · rw [if_pos h0]
      simp only [CombineAllelesLUT.add_input_merged_idx_pair,
        CombineAllelesLUT.resize_luts_if_needed]
      rcases hne cv (by simp) with h | h
      · rw [if_neg (fun hcc => h hcc.1.symm)]
      · rw [if_neg (fun hcc => h hcc.2.symm)]
    · rw [if_neg h0]

theorem finalLutFold_write (f : Nat → Int) (n : Nat) :
    ∀ (l : Variant) (lut : CombineAllelesLUT) (cv : Nat × VariantCall),
    cv ∈ l → (l.map Prod.fst).Nodup → 0 ≤ f cv.1 →
    (l.foldl (fun lu cv => if 0 ≤ f cv.1 then
        (lu.resize_luts_if_needed (n + 1)).add_input_merged_idx_pair
          cv.1 (f cv.1) (n : Int)
      else lu) lut).inputToMerged cv.1 (f cv.1) = (n : Int) := by
  intro l
  induction l with
  | nil =>
    intro lut cv hmem
    cases hmem
  | cons cv0 rest ih =>
    intro lut cv hmem hnd h0
    simp only [List.foldl_cons]
    rcases List.mem_cons.mp hmem with rfl | hmem'
    · have hnotin : cv.1 ∉ rest.map Prod.fst := by
        rw [List.map_cons, List.nodup_cons] at hnd
        exact hnd.1
      rw [finalLutFold_other f n rest _ cv.1 (f cv.1)
        (fun cv' h' => Or.inl (fun he => hnotin (he ▸ List.mem_map_of_mem Prod.fst h')))]
      rw [if_pos h0]
      simp only [CombineAllelesLUT.add_input_merged_idx_pair,
        CombineAllelesLUT.resize_luts_if_needed]
      simp
    · have hnd' : (rest.map Prod.fst).Nodup := by
        rw [List.map_cons, List.nodup_cons] at hnd
        exact hnd.2
      exact ih _ cv hmem' hnd' h0

theorem main_inr_ne (mr : Str) (variant : Variant) (lut0 : CombineAllelesLUT)
    (hnd : (variant.map Prod.fst).Nodup) (cv : Nat × VariantCall) (hmem : cv ∈ variant)
    (p : Nat) (a : Str) (hp : cv.2.alts.get? p = some a)
    (hn : ¬ IS_NON_REF_ALLELE a) :
    (variant.foldl (processCall mr)
        (initMergeAltState lut0)).input_non_reference_allele_idx cv.1
      ≠ ((1 + p : Nat) : Int) := by
  rcases main_inr_cases mr variant lut0 hnd cv hmem with h | ⟨q, hq, hv⟩
  · rw [h]
    intro he
    omega
  · rw [hv]
    intro he
    have hqp : q = p := by omega
    subst hqp
    rw [hp] at hq
    exact hn (Option.some.inj hq)

theorem merge_alt_lut_stable (mr : Str) (variant : Variant) (lut0 : CombineAllelesLUT)
    (hnd : (variant.map Prod.fst).Nodup) (cv : Nat × VariantCall) (hmem : cv ∈ variant)
    (p : Nat) (a : Str) (hp : cv.2.alts.get? p = some a)
    (hn : ¬ IS_NON_REF_ALLELE a) :
    (merge_alt_alleles variant mr lut0).alleles_LUT.inputToMerged cv.1
        ((1 + p : Nat) : Int)
      = (variant.foldl (processCall mr)
          (initMergeAltState lut0)).alleles_LUT.inputToMerged cv.1
          ((1 + p : Nat) : Int) := by
  by_cases hNR : (variant.foldl (processCall mr)
      (initMergeAltState lut0)).NON_REF_exists = true
  · rw [merge_alt_of_nonref variant mr lut0 hNR]
    refine finalLutFold_other _ _ variant _ cv.1 _ (fun cv' hcv' => ?_)
    by_cases hfst : cv'.1 = cv.1
    · right
      rw [hfst]
      exact main_inr_ne mr variant lut0 hnd cv hmem p a hp hn
    · exact Or.inl hfst
  · rw [merge_alt_of_not_nonref variant mr lut0 hNR]

theorem merge_alt_merged_get?_mono (variant : Variant) (mr : Str)
    (lut0 : CombineAllelesLUT) (p : Nat) (s : Str)
    (h : (variant.foldl (processCall mr)
        (initMergeAltState lut0)).merged_alt_alleles.get? p = some s) :
    (merge_alt_alleles variant mr lut0).merged_alt_alleles.get? p = some s := by
  by_cases hNR : (variant.foldl (processCall mr)
      (initMergeAltState lut0)).NON_REF_exists = true
  · rw [merge_alt_of_nonref variant mr lut0 hNR]
    have hlt : p < (variant.foldl (processCall mr)
        (initMergeAltState lut0)).merged_alt_alleles.length := by
      by_contra hge
      rw [List.get?_eq_none.mpr (by omega)] at h
      cases h
    show ((variant.foldl (processCall mr)
        (initMergeAltState lut0)).merged_alt_alleles
      ++ [g_non_reference_allele]).get? p = some s
    rw [List.get?_append hlt]
    exact h
  · rw [merge_alt_of_not_nonref variant mr lut0 hNR]
    exact h

/-- Claim C3 (confirmed): for every input in which some valid sample
contributes the symbolic placeholder, the merged alt list ends with the
placeholder (it occupies the last merged allele index, equal to the length of
the merged alt list counting REF at 0), regardless of where in the iteration
the placeholder was seen; and every sample that had the placeholder locally
(at its last local placeholder index) has its local index mapped to this
final merged index in the translation table. -/
theorem merge_alt_placeholder_last_spec (variant : Variant) (mr : Str)
    (lut0 : CombineAllelesLUT)
    (hnd : (variant.map Prod.fst).Nodup)
    (hex : ∃ cv ∈ variant, ∃ a ∈ cv.2.alts, IS_NON_REF_ALLELE a) :
    ((merge_alt_alleles variant mr lut0).merged_alt_alleles ≠ [] ∧
     (merge_alt_alleles variant mr lut0).merged_alt_alleles.getLast?
       = some g_non_reference_allele) ∧
    (∀ cv ∈ variant, ∀ p, cv.2.alts.get? p = some g_non_reference_allele →
      (∀ q a', cv.2.alts.get? q = some a' → p < q → ¬ IS_NON_REF_ALLELE a') →
      (merge_alt_alleles variant mr lut0).alleles_LUT.inputToMerged cv.1
          ((1 + p : Nat) : Int)
        = ((merge_alt_alleles variant mr lut0).merged_alt_alleles.length : Int)) := by
  have hNR : (variant.foldl (processCall mr)
      (initMergeAltState lut0)).NON_REF_exists = true := by
    rw [main_nonref_bool, List.any_eq_true]
    obtain ⟨cv, hcv, a, ha, hNa⟩ := hex
    refine ⟨cv, hcv, ?_⟩
    rw [List.any_eq_true]
    exact ⟨a, ha, by simpa using hNa⟩
  have hres := merge_alt_of_nonref variant mr lut0 hNR
  have hmerged : (merge_alt_alleles variant mr lut0).merged_alt_alleles
      = (variant.foldl (processCall mr)
          (initMergeAltState lut0)).merged_alt_alleles ++ [g_non_reference_allele] := by
    rw [hres]
  constructor
  · constructor
    · rw [hmerged]
      simp
    · rw [hmerged]
      exact List.getLast?_concat _
  · intro cv hmem p hp hafter
    have hinr := main_inr_last mr variant lut0 hnd cv hmem p hp hafter
    have hlut : (merge_alt_alleles variant mr lut0).alleles_LUT.inputToMerged cv.1
        ((variant.foldl (processCall mr)
          (initMergeAltState lut0)).input_non_reference_allele_idx cv.1)
        = (((variant.foldl (processCall mr)
            (initMergeAltState lut0)).merged_alt_alleles
          ++ [g_non_reference_allele]).length : Int) := by
      rw [hres]
      exact finalLutFold_write _ _ variant _ cv hmem hnd (by rw [hinr]; omega)
    rw [hinr] at hlut
    rw [hlut, hmerged]

/-- Witness for merge_alt_placeholder_last_spec: a single call with alts
[C, placeholder] yields a merged alt list ending in the placeholder, and the
call's local placeholder index 2 maps to the final merged index. -/
theorem merge_alt_placeholder_last_spec_witness :
    (merge_alt_alleles [(0, ⟨"A".data, ["C".data, "&".data]⟩)] "A".data
        emptyLUT).merged_alt_alleles.getLast? = some g_non_reference_allele ∧
    (merge_alt_alleles [(0, ⟨"A".data, ["C".data, "&".data]⟩)] "A".data
        emptyLUT).alleles_LUT.inputToMerged 0 ((1 + 1 : Nat) : Int)
      = ((merge_alt_alleles [(0, ⟨"A".data, ["C".data, "&".data]⟩)] "A".data
          emptyLUT).merged_alt_alleles.length : Int) := by
  have h := merge_alt_placeholder_last_spec
    [(0, ⟨"A".data, ["C".data, "&".data]⟩)] "A".data emptyLUT
    (by decide)
    ⟨(0, ⟨"A".data, ["C".data, "&".data]⟩), by decide, "&".data, by decide, rfl⟩
  refine ⟨h.1.2, h.2 (0, ⟨"A".data, ["C".data, "&".data]⟩) (by decide) 1 rfl ?_⟩
  intro q a' hq hlt
  obtain ⟨n, rfl⟩ : ∃ n, q = n + 2 := ⟨q - 2, by omega⟩
  rw [show (["C".data, "&".data] : List Str).get? (n + 2) = none from rfl] at hq
  cases hq

/-- Claim C4 (confirmed): deduplication and order of the merged alt list.
Two samples contributing identical post-padding non-placeholder alt alleles
map to the same merged index in the translation table; the merged alt list has
no duplicates; and its non-placeholder part is exactly the keep-first
deduplication of the padded non-placeholder alt alleles in iteration order
(valid samples outer, local alt alleles inner), i.e. first-seen order with the
placeholder (if any) last. -/
theorem merge_alt_dedup_order_spec (variant : Variant) (mr : Str)
    (lut0 : CombineAllelesLUT)
    (hnd : (variant.map Prod.fst).Nodup)
    (hpad : ∀ cv ∈ variant, ∀ a ∈ cv.2.alts, ¬ IS_NON_REF_ALLELE a →
      padAllele mr cv.2.ref.length a ≠ g_non_reference_allele) :
    (∀ cv1 ∈ variant, ∀ cv2 ∈ variant, ∀ p1 p2 a1 a2,
      cv1.2.alts.get? p1 = some a1 → cv2.2.alts.get? p2 = some a2 →
      ¬ IS_NON_REF_ALLELE a1 → ¬ IS_NON_REF_ALLELE a2 →
      padAllele mr cv1.2.ref.length a1 = padAllele mr cv2.2.ref.length a2 →
      (merge_alt_alleles variant mr lut0).alleles_LUT.inputToMerged cv1.1
          ((1 + p1 : Nat) : Int)
        = (merge_alt_alleles variant mr lut0).alleles_LUT.inputToMerged cv2.1
          ((1 + p2 : Nat) : Int)) ∧
    (merge_alt_alleles variant mr lut0).merged_alt_alleles.Nodup ∧
    (merge_alt_alleles variant mr lut0).merged_alt_alleles.filter
        (fun s => decide (s ≠ g_non_reference_allele))
      = dedupFirst (flattenPaddedAlts mr variant) := by
  have hinv := foldCalls_SeenInv mr variant _ (initMergeAltState_SeenInv lut0)
  have hnodup := SeenInv_nodup hinv
  have hnotmem := SeenInv_nonref_notmem hinv
  refine ⟨?_, ?_, ?_⟩
  · intro cv1 h1 cv2 h2 p1 p2 a1 a2 hp1 hp2 hn1 hn2 hpe
    obtain ⟨m1, hs1, hl1⟩ := main_action mr variant lut0 hnd cv1 h1 p1 a1 hp1 hn1
    obtain ⟨m2, hs2, hl2⟩ := main_action mr variant lut0 hnd cv2 h2 p2 a2 hp2 hn2
    have hm12 : m1 = m2 := by
      rw [hpe] at hs1
      exact Option.some.inj (hs1.symm.trans hs2)
    rw [merge_alt_lut_stable mr variant lut0 hnd cv1 h1 p1 a1 hp1 hn1,
        merge_alt_lut_stable mr variant lut0 hnd cv2 h2 p2 a2 hp2 hn2, hl1, hl2, hm12]
  · by_cases hNR : (variant.foldl (processCall mr)
        (initMergeAltState lut0)).NON_REF_exists = true
    · rw [merge_alt_of_nonref variant mr lut0 hNR]
      show ((variant.foldl (processCall mr)
          (initMergeAltState lut0)).merged_alt_alleles
        ++ [g_non_reference_allele]).Nodup
      rw [List.nodup_append]
      refine ⟨hnodup, List.nodup_singleton _, ?_⟩
      intro x hx hx2
      rw [List.mem_singleton] at hx2
      subst hx2
      exact hnotmem hx
    · rw [merge_alt_of_not_nonref variant mr lut0 hNR]
      exact hnodup
  · have hflat := main_flat mr variant lut0 hpad
    have hfself : (variant.foldl (processCall mr)
        (initMergeAltState lut0)).merged_alt_alleles.filter
          (fun s => decide (s ≠ g_non_reference_allele))
        = (variant.foldl (processCall mr)
          (initMergeAltState lut0)).merged_alt_alleles := by
      rw [List.filter_eq_self]
      intro a ha
      simp only [decide_eq_true_eq]
      intro he
      subst he
      exact hnotmem ha
    by_cases hNR : (variant.foldl (processCall mr)
        (initMergeAltState lut0)).NON_REF_exists = true
    · rw [merge_alt_of_nonref variant mr lut0 hNR]
      show ((variant.foldl (processCall mr)
          (initMergeAltState lut0)).merged_alt_alleles
        ++ [g_non_reference_allele]).filter
          (fun s => decide (s ≠ g_non_reference_allele)) = _
      rw [List.filter_append, hfself]
      have h2 : ([g_non_reference_allele].filter
          (fun s => decide (s ≠ g_non_reference_allele))) = [] := by
        simp
      rw [h2, List.append_nil, hflat]
    · rw [merge_alt_of_not_nonref variant mr lut0 hNR]
      rw [hfself, hflat]

/-- Witness for merge_alt_dedup_order_spec: two calls contributing the same
alt "C" map their local index 1 to the same merged index, and the merged list
is duplicate-free and in first-seen order. -/
theorem merge_alt_dedup_order_spec_witness :
    (merge_alt_alleles [(0, ⟨"A".data, ["C".data]⟩), (1, ⟨"A".data, ["C".data]⟩)]
        "A".data emptyLUT).alleles_LUT.inputToMerged 0 ((1 + 0 : Nat) : Int)
      = (merge_alt_alleles [(0, ⟨"A".data, ["C".data]⟩), (1, ⟨"A".data, ["C".data]⟩)]
        "A".data emptyLUT).alleles_LUT.inputToMerged 1 ((1 + 0 : Nat) : Int) ∧
    (merge_alt_alleles [(0, ⟨"A".data, ["C".data]⟩), (1, ⟨"A".data, ["C".data]⟩)]
        "A".data emptyLUT).merged_alt_alleles.Nodup ∧
    (merge_alt_alleles [(0, ⟨"A".data, ["C".data]⟩), (1, ⟨"A".data, ["C".data]⟩)]
        "A".data emptyLUT).merged_alt_alleles.filter
        (fun s => decide (s ≠ g_non_reference_allele))
      = dedupFirst (flattenPaddedAlts "A".data
          [(0, ⟨"A".data, ["C".data]⟩), (1, ⟨"A".data, ["C".data]⟩)]) := by
  have h := merge_alt_dedup_order_spec
    [(0, ⟨"A".data, ["C".data]⟩), (1, ⟨"A".data, ["C".data]⟩)] "A".data emptyLUT
    (by decide) (by decide)
  exact ⟨h.1 (0, ⟨"A".data, ["C".data]⟩) (by decide) (1, ⟨"A".data, ["C".data]⟩)
    (by decide) 0 0 "C".data "C".data rfl rfl (by decide) (by decide) rfl,
    h.2.1, h.2.2⟩

/-- Claim C5 (confirmed): suffix padding.  For every valid sample whose local
reference is strictly shorter than the merged reference, every non-placeholder
alt allele enters the dictionary/merged list extended by exactly the suffix of
the merged reference starting at the local reference's length: the table maps
the allele's local index to a merged index m ≥ 1 whose merged alt list entry
(position m-1) is the padded string.  In particular, with sample references
"T" and "TG" the merged reference is "TG" and alt "G" becomes "GG". -/
theorem merge_alt_suffix_padding_spec (variant : Variant) (mr : Str)
    (lut0 : CombineAllelesLUT)
    (hnd : (variant.map Prod.fst).Nodup) :
    (∀ cv ∈ variant, cv.2.ref.length < mr.length →
      ∀ p a, cv.2.alts.get? p = some a → ¬ IS_NON_REF_ALLELE a →
      a ++ mr.drop cv.2.ref.length ≠ g_non_reference_allele →
      ∃ m : Nat, 1 ≤ m ∧
        (merge_alt_alleles variant mr lut0).alleles_LUT.inputToMerged cv.1
          ((1 + p : Nat) : Int) = (m : Int) ∧
        (merge_alt_alleles variant mr lut0).merged_alt_alleles.get? (m - 1)
          = some (a ++ mr.drop cv.2.ref.length)) ∧
    (merge_reference_allele
        [(0, ⟨"T".data, ["G".data]⟩), (1, ⟨"TG".data, ["T".data]⟩)] [] = "TG".data ∧
      (merge_alt_alleles [(0, ⟨"T".data, ["G".data]⟩), (1, ⟨"TG".data, ["T".data]⟩)]
        "TG".data emptyLUT).merged_alt_alleles = ["GG".data, "T".data]) := by
  constructor
  · intro cv hmem hlt p a hp hn hpadne
    have hinv := foldCalls_SeenInv mr variant _ (initMergeAltState_SeenInv lut0)
    obtain ⟨mi, hs, hl⟩ := main_action mr variant lut0 hnd cv hmem p a hp hn
    have hpad_eq : padAllele mr cv.2.ref.length a = a ++ mr.drop cv.2.ref.length := by
      rw [padAllele, if_pos hlt]
    obtain ⟨q, hq, hmq⟩ := hinv.2.2.2 _ mi hs (by rw [hpad_eq]; exact hpadne)
    rw [hpad_eq] at hq
    refine ⟨q + 1, by omega, ?_, ?_⟩
    · rw [merge_alt_lut_stable mr variant lut0 hnd cv hmem p a hp hn, hl, hmq]
      omega
    · have hmono := merge_alt_merged_get?_mono variant mr lut0 q _ hq
      simpa using hmono
  · exact ⟨by decide, by decide⟩

/-- Witness for merge_alt_suffix_padding_spec: the spec's Scenario 1.  Merged
reference of "T" and "TG" is "TG"; the "T" sample's alt "G" is padded to "GG",
lands first in the merged alt list, and the sample's local index 1 maps to
merged index 1. -/
theorem merge_alt_suffix_padding_spec_witness :
    (merge_reference_allele
        [(0, ⟨"T".data, ["G".data]⟩), (1, ⟨"TG".data, ["T".data]⟩)] [] = "TG".data ∧
      (merge_alt_alleles [(0, ⟨"T".data, ["G".data]⟩), (1, ⟨"TG".data, ["T".data]⟩)]
        "TG".data emptyLUT).merged_alt_alleles = ["GG".data, "T".data]) ∧
    (merge_alt_alleles [(0, ⟨"T".data, ["G".data]⟩), (1, ⟨"TG".data, ["T".data]⟩)]
        "TG".data emptyLUT).alleles_LUT.inputToMerged 0 ((1 + 0 : Nat) : Int)
      = ((1 : Nat) : Int) := by
  have h := merge_alt_suffix_padding_spec
    [(0, ⟨"T".data, ["G".data]⟩), (1, ⟨"TG".data, ["T".data]⟩)] "TG".data emptyLUT
    (by decide)
  refine ⟨h.2, ?_⟩
  obtain ⟨m, hm1, hm2, hm3⟩ := h.1 (0, ⟨"T".data, ["G".data]⟩) (by decide)
    (by decide) 0 "G".data rfl (by decide) (by decide)
  have hml := h.2.2
  rw [hml] at hm3
  have hm0 : m - 1 = 0 := by
    rcases Nat.lt_trichotomy (m - 1) 1 with h0 | h1 | h2
    · omega
    · rw [h1] at hm3
      rw [show (["GG".data, "T".data] : List Str).get? 1 = some "T".data from rfl]
        at hm3
      have := Option.some.inj hm3
      exact absurd this (by decide)
    · rw [List.get?_eq_none.mpr (by simp; omega)] at hm3
      cases hm3
  have hm1' : m = 1 := by omega
  rw [hm1'] at hm2
  exact hm2
